import Mathlib

/-!
# Verification of the GStorm hyetograph engine

Shallow embedding, over exact rationals, of the core numeric engine of the
GStorm design-storm application:

* `linearInterpolate` — the monotone piecewise-linear interpolator;
* `calculateHyetograph` — the canonical hyetograph calculator
  (per-duration distribution curves, no time rescaling);
* `preprocessDistributions`' per-curve body — boundary and monotonicity
  normalisation of a distribution curve;
* `parseNoaaCsv` — the NOAA precipitation-frequency table parser;
* the historical `calculateHyetograph` of `tr55.ts`, which rescales target
  times onto a single 24-hour base curve.

JavaScript `number` arithmetic is modelled by `ℚ`; the engine's explicit
numeric tolerances (`1e-6`, `1e-9`, `1e-3`) become exact rational constants.
Stores that the source reads as module-level globals are passed as explicit
parameters, so theorems quantify over store contents.
-/

namespace GStorm

/-- `1e-6`, the tolerance used by the interpolator's exact-point snap and by
the calculator's zero-length-interval skip. -/
def tol : ℚ := 1 / 1000000

/-- `1e-9`, the interpolator's divide-by-zero guard tolerance. -/
def tolDiv : ℚ := 1 / 1000000000

/-- `1e-3`, the tolerance used by `preprocessDistributions` around the
nominal storm duration. -/
def tolMs : ℚ := 1 / 1000

/-- Unit conversion constant `INCH_TO_MM = 25.4`. -/
def INCH_TO_MM : ℚ := 254 / 10

/-! ## The interpolator (`linearInterpolate`, `src/unnamed/part_003`) -/

/-- Fuel-bounded body of the `while` loop of `linearInterpolate`; the fuel
`xs.length - i` makes the recursion structural. -/
def scanGo (x : ℚ) (xs : List ℚ) : ℕ → ℕ → ℕ
  | 0, i => i
  | fuel + 1, i =>
      if i < xs.length then
        if xs.getD i 0 < x then scanGo x xs fuel (i + 1) else i
      else i

/-- The `while (i < xPoints.length && xPoints[i] < x) i++;` loop of
`linearInterpolate`: starting from `i`, the first index at which the table
value is `≥ x` (or the length if none). -/
def scanIdx (x : ℚ) (xs : List ℚ) (i : ℕ) : ℕ := scanGo x xs (xs.length - i) i

/-- The body of `linearInterpolate` once the bracketing interval
`[x0, x1] = [xPoints[i-1], xPoints[i]]` is located: snap to a table point
within `1e-6` (upper end checked first, as in the source), guard a
degenerate interval within `1e-9`, else interpolate linearly. -/
def interpCore (x x0 x1 y0 y1 : ℚ) : ℚ :=
  if |x - x1| < tol then y1
  else if |x - x0| < tol then y0
  else if |x1 - x0| < tolDiv then y0
  else y0 + (y1 - y0) * ((x - x0) / (x1 - x0))

/-- `linearInterpolate(x, xPoints, yPoints)` from `src/unnamed/part_003`:
clamp outside the table, otherwise locate the bracketing interval with the
`while` loop (`scanIdx`) and apply `interpCore`. -/
def linearInterpolate (x : ℚ) (xPoints yPoints : List ℚ) : ℚ :=
  if x ≤ xPoints.getD 0 0 then yPoints.getD 0 0
  else if xPoints.getD (xPoints.length - 1) 0 ≤ x then
    yPoints.getD (xPoints.length - 1) 0
  else
    interpCore x
      (xPoints.getD (scanIdx x xPoints 1 - 1) 0)
      (xPoints.getD (scanIdx x xPoints 1) 0)
      (yPoints.getD (scanIdx x xPoints 1 - 1) 0)
      (yPoints.getD (scanIdx x xPoints 1) 0)

/-! ### Properties of `scanIdx` -/

theorem scanIdx_step_lt {x : ℚ} {xs : List ℚ} {i : ℕ}
    (h1 : i < xs.length) (h2 : xs.getD i 0 < x) :
    scanIdx x xs i = scanIdx x xs (i + 1) := by
  obtain ⟨fuel, hfuel⟩ : ∃ fuel, xs.length - i = fuel + 1 :=
    ⟨xs.length - i - 1, by omega⟩
  unfold scanIdx
  rw [hfuel, scanGo, if_pos h1, if_pos h2]
  have : xs.length - (i + 1) = fuel := by omega
  rw [this]

theorem scanIdx_step_stop {x : ℚ} {xs : List ℚ} {i : ℕ}
    (h1 : i < xs.length) (h2 : ¬ xs.getD i 0 < x) :
    scanIdx x xs i = i := by
  obtain ⟨fuel, hfuel⟩ : ∃ fuel, xs.length - i = fuel + 1 :=
    ⟨xs.length - i - 1, by omega⟩
  unfold scanIdx
  rw [hfuel, scanGo, if_pos h1, if_neg h2]

theorem scanIdx_step_end {x : ℚ} {xs : List ℚ} {i : ℕ}
    (h1 : ¬ i < xs.length) : scanIdx x xs i = i := by
  have hfuel : xs.length - i = 0 := by omega
  unfold scanIdx
  rw [hfuel, scanGo]

theorem scanIdx_ge (x : ℚ) (xs : List ℚ) (i : ℕ) : i ≤ scanIdx x xs i := by
  by_cases h1 : i < xs.length
  · by_cases h2 : xs.getD i 0 < x
    · rw [scanIdx_step_lt h1 h2]
      have := scanIdx_ge x xs (i + 1)
      omega
    · rw [scanIdx_step_stop h1 h2]
  · rw [scanIdx_step_end h1]
termination_by xs.length - i

theorem scanIdx_le_length (x : ℚ) (xs : List ℚ) (i : ℕ) (hi : i ≤ xs.length) :
    scanIdx x xs i ≤ xs.length := by
  by_cases h1 : i < xs.length
  · by_cases h2 : xs.getD i 0 < x
    · rw [scanIdx_step_lt h1 h2]
      exact scanIdx_le_length x xs (i + 1) (by omega)
    · rw [scanIdx_step_stop h1 h2]; omega
  · rw [scanIdx_step_end h1]; exact hi
termination_by xs.length - i

theorem scanIdx_stop (x : ℚ) (xs : List ℚ) (i : ℕ)
    (h : scanIdx x xs i < xs.length) : x ≤ xs.getD (scanIdx x xs i) 0 := by
  by_cases h1 : i < xs.length
  · by_cases h2 : xs.getD i 0 < x
    · rw [scanIdx_step_lt h1 h2] at h ⊢
      exact scanIdx_stop x xs (i + 1) h
    · rw [scanIdx_step_stop h1 h2]
      exact not_lt.mp h2
  · rw [scanIdx_step_end h1] at h
    omega
termination_by xs.length - i

theorem scanIdx_before (x : ℚ) (xs : List ℚ) (i k : ℕ)
    (hik : i ≤ k) (hk : k < scanIdx x xs i) : xs.getD k 0 < x := by
  by_cases h1 : i < xs.length
  · by_cases h2 : xs.getD i 0 < x
    · rw [scanIdx_step_lt h1 h2] at hk
      rcases Nat.eq_or_lt_of_le hik with h | h
      · subst h; exact h2
      · exact scanIdx_before x xs (i + 1) k h hk
    · rw [scanIdx_step_stop h1 h2] at hk
      omega
  · rw [scanIdx_step_end h1] at hk
    omega
termination_by xs.length - i

theorem scanIdx_eq_of (x : ℚ) (xs : List ℚ) (i j : ℕ)
    (hij : i ≤ j) (hjl : j ≤ xs.length)
    (hbefore : ∀ k, i ≤ k → k < j → xs.getD k 0 < x)
    (hstop : j < xs.length → ¬ xs.getD j 0 < x) :
    scanIdx x xs i = j := by
  rcases Nat.eq_or_lt_of_le hij with h | h
  · subst h
    rcases Nat.eq_or_lt_of_le hjl with h' | h'
    · exact scanIdx_step_end (by omega)
    · exact scanIdx_step_stop h' (hstop h')
  · have h1 : i < xs.length := by omega
    rw [scanIdx_step_lt h1 (hbefore i le_rfl h)]
    exact scanIdx_eq_of x xs (i + 1) j h hjl
      (fun k hk1 hk2 => hbefore k (by omega) hk2) hstop
termination_by xs.length - i

/-! ### Sorted-list index helpers -/

theorem sorted_lt_getD {xs : List ℚ} (h : List.Sorted (· < ·) xs) {i j : ℕ}
    (hij : i < j) (hj : j < xs.length) : xs.getD i 0 < xs.getD j 0 := by
  rw [List.getD_eq_getElem xs 0 (by omega), List.getD_eq_getElem xs 0 hj]
  exact List.pairwise_iff_getElem.mp h i j (by omega) hj hij

theorem sorted_le_getD {xs : List ℚ} (h : List.Sorted (· ≤ ·) xs) {i j : ℕ}
    (hij : i ≤ j) (hj : j < xs.length) : xs.getD i 0 ≤ xs.getD j 0 := by
  rcases Nat.eq_or_lt_of_le hij with h' | h'
  · subst h'; exact le_refl _
  · rw [List.getD_eq_getElem xs 0 (by omega), List.getD_eq_getElem xs 0 hj]
    exact List.pairwise_iff_getElem.mp h i j (by omega) hj h'

/-! ### Properties of `interpCore` -/

theorem tol_pos : (0 : ℚ) < tol := by norm_num [tol]

theorem tolDiv_pos : (0 : ℚ) < tolDiv := by norm_num [tolDiv]

theorem interpCore_bounds {x x0 x1 y0 y1 : ℚ} (hy : y0 ≤ y1)
    (hx0 : x0 < x) (hx1 : x ≤ x1) :
    y0 ≤ interpCore x x0 x1 y0 y1 ∧ interpCore x x0 x1 y0 y1 ≤ y1 := by
  unfold interpCore
  split
  · exact ⟨hy, le_refl _⟩
  · split
    · exact ⟨le_refl _, hy⟩
    · split
      · exact ⟨le_refl _, hy⟩
      · have hd : 0 < x1 - x0 := by linarith
        have hfpos : 0 < (x - x0) / (x1 - x0) := div_pos (by linarith) hd
        have hfle : (x - x0) / (x1 - x0) ≤ 1 := by
          rw [div_le_one hd]; linarith
        constructor
        · nlinarith
        · nlinarith

theorem interpCore_mono {a b x0 x1 y0 y1 : ℚ} (hy : y0 ≤ y1)
    (hx0a : x0 < a) (hab : a ≤ b) (hbx1 : b ≤ x1) :
    interpCore a x0 x1 y0 y1 ≤ interpCore b x0 x1 y0 y1 := by
  have ha1 : a ≤ x1 := le_trans hab hbx1
  have hx0b : x0 < b := lt_of_lt_of_le hx0a hab
  by_cases hA : |a - x1| < tol
  · -- `a` snaps to the upper point; then so does `b`.
    have hB : |b - x1| < tol := by
      rw [abs_sub_comm, abs_of_nonneg (by linarith)] at hA ⊢
      linarith
    unfold interpCore
    rw [if_pos hA, if_pos hB]
  · by_cases hB : |b - x1| < tol
    · -- `b` snaps to the upper point: its value is the interval maximum.
      have h2 := (interpCore_bounds hy hx0a ha1).2
      have hbv : interpCore b x0 x1 y0 y1 = y1 := by
        unfold interpCore; rw [if_pos hB]
      rw [hbv]; exact h2
    · by_cases hB0 : |b - x0| < tol
      · -- `b` snaps to the lower point; then so does `a`.
        have hA0 : |a - x0| < tol := by
          rw [abs_of_nonneg (by linarith)] at hB0 ⊢
          linarith
        unfold interpCore
        rw [if_neg hA, if_neg hB, if_pos hA0, if_pos hB0]
      · by_cases hA0 : |a - x0| < tol
        · -- `a` snaps to the lower point: its value is the interval minimum.
          have h1 := (interpCore_bounds hy hx0b hbx1).1
          have hav : interpCore a x0 x1 y0 y1 = y0 := by
            unfold interpCore; rw [if_neg hA, if_pos hA0]
          rw [hav]; exact h1
        · unfold interpCore
          rw [if_neg hA, if_neg hB, if_neg hA0, if_neg hB0]
          split
          · exact le_refl _
          · have hd : 0 < x1 - x0 := by linarith
            have hmono : (a - x0) / (x1 - x0) ≤ (b - x0) / (x1 - x0) :=
              (div_le_div_iff_of_pos_right hd).mpr (by linarith)
            have := mul_le_mul_of_nonneg_left hmono (sub_nonneg.mpr hy)
            linarith

/-! ### Interior bracketing -/

/-- When `x` lies strictly inside the table, the `while` loop stops at an
index `j` with `1 ≤ j < length` and `xPoints[j-1] < x ≤ xPoints[j]`. -/
theorem scan_interior {x : ℚ} {xs : List ℚ}
    (h0 : xs.getD 0 0 < x) (hlast : x < xs.getD (xs.length - 1) 0) :
    1 ≤ scanIdx x xs 1 ∧ scanIdx x xs 1 < xs.length ∧
      xs.getD (scanIdx x xs 1 - 1) 0 < x ∧ x ≤ xs.getD (scanIdx x xs 1) 0 := by
  have hlen1 : 1 ≤ xs.length := by
    by_contra hcon
    have hz : xs.length = 0 := by omega
    rw [List.getD_eq_default xs 0 (by omega)] at h0
    rw [List.getD_eq_default xs 0 (by omega)] at hlast
    linarith
  have hge := scanIdx_ge x xs 1
  have hle := scanIdx_le_length x xs 1 hlen1
  have hlt : scanIdx x xs 1 < xs.length := by
    rcases Nat.eq_or_lt_of_le hle with h | h
    · exfalso
      rcases Nat.eq_or_lt_of_le hlen1 with h1 | h1
      · -- `length = 1` contradicts having an interior point at all
        have hz : xs.length - 1 = 0 := by omega
        rw [hz] at hlast
        linarith
      · have : xs.getD (xs.length - 1) 0 < x :=
          scanIdx_before x xs 1 (xs.length - 1) (by omega) (by omega)
        linarith
    · exact h
  refine ⟨hge, hlt, ?_, scanIdx_stop x xs 1 hlt⟩
  rcases Nat.eq_or_lt_of_le hge with h | h
  · rw [← h]; simpa using h0
  · exact scanIdx_before x xs 1 (scanIdx x xs 1 - 1) (by omega) (by omega)

/-! ### Branch lemmas for `linearInterpolate` -/

theorem interp_clamp_low {x : ℚ} {xs ys : List ℚ} (h : x ≤ xs.getD 0 0) :
    linearInterpolate x xs ys = ys.getD 0 0 := by
  unfold linearInterpolate; rw [if_pos h]

theorem interp_clamp_high {x : ℚ} {xs ys : List ℚ} (h0 : ¬ x ≤ xs.getD 0 0)
    (h : xs.getD (xs.length - 1) 0 ≤ x) :
    linearInterpolate x xs ys = ys.getD (xs.length - 1) 0 := by
  unfold linearInterpolate; rw [if_neg h0, if_pos h]

theorem interp_interior {x : ℚ} {xs ys : List ℚ} (h0 : ¬ x ≤ xs.getD 0 0)
    (h1 : ¬ xs.getD (xs.length - 1) 0 ≤ x) :
    linearInterpolate x xs ys =
      interpCore x
        (xs.getD (scanIdx x xs 1 - 1) 0) (xs.getD (scanIdx x xs 1) 0)
        (ys.getD (scanIdx x xs 1 - 1) 0) (ys.getD (scanIdx x xs 1) 0) := by
  unfold linearInterpolate; rw [if_neg h0, if_neg h1]

/-- For a non-decreasing table the interpolated value is bounded by the
first and last table values. -/
theorem interp_global_bounds {x : ℚ} {xs ys : List ℚ}
    (hxs : List.Sorted (· ≤ ·) xs) (hys : List.Sorted (· ≤ ·) ys)
    (hlen : xs.length = ys.length) (hne : 1 ≤ xs.length) :
    ys.getD 0 0 ≤ linearInterpolate x xs ys ∧
      linearInterpolate x xs ys ≤ ys.getD (ys.length - 1) 0 := by
  by_cases h0 : x ≤ xs.getD 0 0
  · rw [interp_clamp_low h0]
    exact ⟨le_refl _, sorted_le_getD hys (by omega) (by omega)⟩
  · by_cases h1 : xs.getD (xs.length - 1) 0 ≤ x
    · rw [interp_clamp_high h0 h1, hlen]
      exact ⟨sorted_le_getD hys (by omega) (by omega), le_refl _⟩
    · rw [interp_interior h0 h1]
      obtain ⟨hj1, hjlt, hjlo, hjhi⟩ := scan_interior (not_le.mp h0) (not_le.mp h1)
      have hylen : scanIdx x xs 1 < ys.length := by omega
      have hcore := @interpCore_bounds x (xs.getD (scanIdx x xs 1 - 1) 0)
        (xs.getD (scanIdx x xs 1) 0) (ys.getD (scanIdx x xs 1 - 1) 0)
        (ys.getD (scanIdx x xs 1) 0)
        (sorted_le_getD hys (Nat.sub_le _ 1) hylen) hjlo hjhi
      constructor
      · exact le_trans (sorted_le_getD hys (by omega) (by omega)) hcore.1
      · exact le_trans hcore.2 (sorted_le_getD hys (by omega) (by omega))

/-- The `while` loop's stop index is monotone in the probe value. -/
theorem scanIdx_mono {a b : ℚ} (xs : List ℚ) (i : ℕ) (hab : a ≤ b) :
    scanIdx a xs i ≤ scanIdx b xs i := by
  by_cases h1 : i < xs.length
  · by_cases h2 : xs.getD i 0 < a
    · rw [scanIdx_step_lt h1 h2, scanIdx_step_lt h1 (lt_of_lt_of_le h2 hab)]
      exact scanIdx_mono xs (i + 1) hab
    · rw [scanIdx_step_stop h1 h2]
      exact scanIdx_ge b xs i
  · rw [scanIdx_step_end h1, scanIdx_step_end h1]
termination_by xs.length - i

/-- `linearInterpolate` is monotone in the probe value over a non-decreasing
table (both coordinates non-decreasing, equal lengths). -/
theorem interp_mono {a b : ℚ} {xs ys : List ℚ}
    (hxs : List.Sorted (· ≤ ·) xs) (hys : List.Sorted (· ≤ ·) ys)
    (hlen : xs.length = ys.length) (hne : 1 ≤ xs.length) (hab : a ≤ b) :
    linearInterpolate a xs ys ≤ linearInterpolate b xs ys := by
  by_cases hA0 : a ≤ xs.getD 0 0
  · rw [interp_clamp_low hA0]
    exact (interp_global_bounds hxs hys hlen hne).1
  · by_cases hB1 : xs.getD (xs.length - 1) 0 ≤ b
    · rw [interp_clamp_high (fun hc => hA0 (le_trans hab hc)) hB1, hlen]
      exact (interp_global_bounds hxs hys hlen hne (x := a)).2
    · -- both probes are interior
      have hB0 : ¬ b ≤ xs.getD 0 0 := fun hc => hA0 (le_trans hab hc)
      have hA1 : ¬ xs.getD (xs.length - 1) 0 ≤ a :=
        fun hc => hB1 (le_trans hc hab)
      rw [interp_interior hA0 hA1, interp_interior hB0 hB1]
      obtain ⟨hja1, hjalt, hjalo, hjahi⟩ :=
        scan_interior (not_le.mp hA0) (not_le.mp hA1)
      obtain ⟨hjb1, hjblt, hjblo, hjbhi⟩ :=
        scan_interior (not_le.mp hB0) (not_le.mp hB1)
      have hjj : scanIdx a xs 1 ≤ scanIdx b xs 1 := scanIdx_mono xs 1 hab
      rcases Nat.eq_or_lt_of_le hjj with hjeq | hjlt2
      · rw [hjeq]
        rw [hjeq] at hjalo hjahi
        exact interpCore_mono
          (sorted_le_getD hys (Nat.sub_le _ 1) (by omega)) hjalo hab hjbhi
      · -- the probes fall in different intervals
        calc interpCore a
              (xs.getD (scanIdx a xs 1 - 1) 0) (xs.getD (scanIdx a xs 1) 0)
              (ys.getD (scanIdx a xs 1 - 1) 0) (ys.getD (scanIdx a xs 1) 0)
            ≤ ys.getD (scanIdx a xs 1) 0 :=
              (interpCore_bounds
                (sorted_le_getD hys (Nat.sub_le _ 1) (by omega)) hjalo hjahi).2
          _ ≤ ys.getD (scanIdx b xs 1 - 1) 0 :=
              sorted_le_getD hys (by omega) (by omega)
          _ ≤ interpCore b
              (xs.getD (scanIdx b xs 1 - 1) 0) (xs.getD (scanIdx b xs 1) 0)
              (ys.getD (scanIdx b xs 1 - 1) 0) (ys.getD (scanIdx b xs 1) 0) :=
              (interpCore_bounds
                (sorted_le_getD hys (Nat.sub_le _ 1) (by omega)) hjblo hjbhi).1

/-! ### Claims C6 and C7 -/

/-- C6: for a table with strictly increasing `orderedXs`, equal lengths and
length ≥ 1, `interpolate` clamps: any `x ≤ orderedXs[0]` returns
`orderedYs[0]`, and any `x ≥ orderedXs[last]` returns `orderedYs[last]`. -/
theorem interpolate_clamps (xs ys : List ℚ) (x : ℚ)
    (hlen : xs.length = ys.length) (hne : 1 ≤ xs.length)
    (hsort : List.Sorted (· < ·) xs) :
    (x ≤ xs.getD 0 0 → linearInterpolate x xs ys = ys.getD 0 0) ∧
    (xs.getD (xs.length - 1) 0 ≤ x →
      linearInterpolate x xs ys = ys.getD (xs.length - 1) 0) := by
  constructor
  · exact fun h => interp_clamp_low h
  · intro h
    by_cases h0 : x ≤ xs.getD 0 0
    · -- forces a one-point table, where both clamp values agree
      rcases Nat.eq_or_lt_of_le hne with h1 | h1
      · rw [interp_clamp_low h0, ← h1]
      · exact absurd (lt_of_le_of_lt (le_trans h h0)
          (sorted_lt_getD hsort (show 0 < xs.length - 1 by omega) (by omega)))
          (lt_irrefl _)
    · exact interp_clamp_high h0 h

/-- Witness for C6 at a concrete table. -/
theorem interpolate_clamps_witness :
    ([(0 : ℚ), 10].length = [(5 : ℚ), 7].length ∧ 1 ≤ [(0 : ℚ), 10].length ∧
      List.Sorted (· < ·) [(0 : ℚ), 10]) ∧
    linearInterpolate (-3) [(0 : ℚ), 10] [5, 7] = 5 ∧
    linearInterpolate 12 [(0 : ℚ), 10] [5, 7] = 7 :=
  ⟨⟨rfl, by norm_num, by decide⟩,
    (interpolate_clamps [(0 : ℚ), 10] [5, 7] (-3) rfl (by norm_num)
      (by decide)).1 (by norm_num),
    (interpolate_clamps [(0 : ℚ), 10] [5, 7] 12 rfl (by norm_num)
      (by decide)).2 (by norm_num)⟩

/-- C7: over a table satisfying the contract (strictly increasing
`orderedXs`, equal lengths, length ≥ 1), `interpolate` is the identity at
table points: `interpolate(orderedXs[i]) = orderedYs[i]` for every index. -/
theorem interpolate_idempotent_at_points (xs ys : List ℚ)
    (hlen : xs.length = ys.length) (hne : 1 ≤ xs.length)
    (hsort : List.Sorted (· < ·) xs) (i : ℕ) (hi : i < xs.length) :
    linearInterpolate (xs.getD i 0) xs ys = ys.getD i 0 := by
  rcases Nat.eq_or_lt_of_le (Nat.zero_le i) with h0 | h0
  · rw [← h0]
    exact interp_clamp_low (le_refl _)
  · rcases Nat.eq_or_lt_of_le (Nat.succ_le_of_lt hi) with hL | hL
    · have hieq : i = xs.length - 1 := by omega
      rw [hieq]
      exact interp_clamp_high
        (not_le.mpr (sorted_lt_getD hsort (by omega) (by omega))) (le_refl _)
    · have hilast : i < xs.length - 1 := by omega
      have hc0 : ¬ xs.getD i 0 ≤ xs.getD 0 0 :=
        not_le.mpr (sorted_lt_getD hsort h0 hi)
      have hc1 : ¬ xs.getD (xs.length - 1) 0 ≤ xs.getD i 0 :=
        not_le.mpr (sorted_lt_getD hsort hilast (by omega))
      rw [interp_interior hc0 hc1]
      have hscan : scanIdx (xs.getD i 0) xs 1 = i :=
        scanIdx_eq_of _ xs 1 i (by omega) (by omega)
          (fun k _ hk2 => sorted_lt_getD hsort hk2 hi)
          (fun _ => lt_irrefl _)
      rw [hscan]
      unfold interpCore
      rw [if_pos (by rw [sub_self, abs_zero]; exact tol_pos)]

/-- Witness for C7 at a concrete table point. -/
theorem interpolate_idempotent_witness :
    ([(0 : ℚ), 4, 10].length = [(1 : ℚ), 3, 9].length ∧
      List.Sorted (· < ·) [(0 : ℚ), 4, 10] ∧ (1 : ℕ) < 3) ∧
    linearInterpolate 4 [(0 : ℚ), 4, 10] [1, 3, 9] = 3 :=
  ⟨⟨rfl, by decide, by norm_num⟩, by
    have h := interpolate_idempotent_at_points [(0 : ℚ), 4, 10] [1, 3, 9]
      rfl (by norm_num) (by decide) 1 (by norm_num)
    simpa using h⟩

/-! ## The hyetograph calculator (`calculateHyetograph`, `src/unnamed/part_003`)

The module-level curve store `stormDistributions` (keyed by
`"Category-SubType-DurationHR"`) is modelled as an explicit parameter
`store : CurveKey → Option DistributionData`, with `CurveKey` the triple the
string key encodes. -/

/-- A processed distribution: times in minutes with cumulative fractions. -/
structure DistributionData where
  time_minutes : List ℚ
  cumulative_fraction : List ℚ
deriving DecidableEq

/-- The composite identity `(category, subType, durationHours)` behind the
string key `"${category}-${subType}-${duration}HR"`. -/
structure CurveKey where
  category : String
  subType : String
  durationHours : ℚ
deriving DecidableEq

/-- `'us' | 'metric'` depth-unit selector. -/
inductive DepthUnit where
  | us
  | metric
deriving DecidableEq

/-- Input parameters of `calculateHyetograph`. -/
structure CalculationInputs where
  totalDepthInput : ℚ
  durationInput : ℚ
  stormCategory : String
  stormSubType : String
  timeStepMinutes : ℚ
  depthUnit : DepthUnit
deriving DecidableEq

/-- One row of the detailed result table. -/
structure StormStep where
  timeStart : ℚ
  timeEnd : ℚ
  intensity : ℚ
  depthStep : ℚ
  cumulativeDepth : ℚ
deriving DecidableEq, Inhabited

/-- The result record of `calculateHyetograph`. -/
structure CalculationResult where
  labels : List String
  intensityData : List ℚ
  peakIntensity : ℚ
  totalDepthActual : ℚ
  intensityUnit : String
  depthUnit : String
  detailedData : List StormStep
deriving DecidableEq

/-- `createEmptyResult()`: the explicit empty sentinel. -/
def createEmptyResult : CalculationResult :=
  { labels := []
    intensityData := []
    peakIntensity := 0
    totalDepthActual := 0
    intensityUnit := "N/A"
    depthUnit := "N/A"
    detailedData := [] }

/-- Left-pad the decimal form of `n` to two characters with `'0'`
(`mins.toString().padStart(2, '0')`). -/
def pad2 (n : ℤ) : String :=
  if 0 ≤ n ∧ n < 10 then "0" ++ toString n else toString n

/-- `formatTimeLabel(timeMinutes, totalDurationMinutes)`: `H:MM` labels for
durations above two hours, else minute labels; `Math.round` is
round-half-up `⌊x + 1/2⌋`. -/
def formatTimeLabel (timeMinutes totalDurationMinutes : ℚ) : String :=
  if 120 + tol < totalDurationMinutes then
    let hours : ℤ := ⌊timeMinutes / 60⌋
    let mins : ℤ := ⌊timeMinutes - 60 * (⌊timeMinutes / 60⌋ : ℤ) + tol + 1 / 2⌋
    if 60 ≤ mins then toString (hours + 1) ++ ":" ++ pad2 0
    else toString hours ++ ":" ++ pad2 mins
  else
    toString ⌊timeMinutes + tol + 1 / 2⌋ ++ "m"

/-- `numSteps = Math.ceil(totalDurationMinutesCalc / timeStepMinutes)`. -/
def numSteps (D dt : ℚ) : ℕ := (⌈D / dt⌉).toNat

/-- The generated boundaries `min(i*timeStep, D)` for `i = 0..numSteps`. -/
def targetTimesRaw (D dt : ℚ) : List ℚ :=
  (List.range (numSteps D dt + 1)).map (fun i : ℕ => min ((i : ℚ) * dt) D)

/-- Remove a duplicated trailing boundary (within `1e-6`). -/
def popDup (ts : List ℚ) : List ℚ :=
  if 1 < ts.length ∧ |ts.getD (ts.length - 1) 0 - ts.getD (ts.length - 2) 0| < tol
  then ts.dropLast else ts

/-- Force the final boundary to equal `D` when it is off by more than
`1e-6`. -/
def forceLast (D : ℚ) (ts : List ℚ) : List ℚ :=
  if 0 < ts.length ∧ tol < |ts.getD (ts.length - 1) 0 - D|
  then ts.dropLast ++ [D] else ts

/-- The final list of target time boundaries. -/
def targetTimes (D dt : ℚ) : List ℚ := forceLast D (popDup (targetTimesRaw D dt))

/-- `targetCumulativeDepthsInches`: `[0]` followed by the interpolated
cumulative depth at each later boundary. -/
def targetCumulative (baseData : DistributionData) (totalDepthInches : ℚ)
    (ts : List ℚ) : List ℚ :=
  0 :: (ts.drop 1).map (fun t =>
    linearInterpolate t baseData.time_minutes baseData.cumulative_fraction *
      totalDepthInches)

/-- The emission loop over consecutive `(boundary, cumulativeDepth)` pairs:
intervals not longer than `1e-6` minutes are skipped, the others yield a
`StormStep` (already converted to the output unit by `conv`). -/
def buildSteps (conv : ℚ) : List (ℚ × ℚ) → List StormStep
  | (t0, c0) :: (t1, c1) :: rest =>
      if t1 - t0 ≤ tol then buildSteps conv ((t1, c1) :: rest)
      else
        { timeStart := t0
          timeEnd := t1
          intensity := (c1 - c0) / ((t1 - t0) / 60) * conv
          depthStep := (c1 - c0) * conv
          cumulativeDepth := c1 * conv } :: buildSteps conv ((t1, c1) :: rest)
  | _ => []

/-- The running accumulator `calculatedTotalDepthInches`: sum of the
cumulative-depth differences of the emitted (non-skipped) intervals. -/
def emittedDiffSum : List (ℚ × ℚ) → ℚ
  | (t0, c0) :: (t1, c1) :: rest =>
      if t1 - t0 ≤ tol then emittedDiffSum ((t1, c1) :: rest)
      else (c1 - c0) + emittedDiffSum ((t1, c1) :: rest)
  | _ => 0

/-- `conversionFactor = isMetric ? INCH_TO_MM : 1`. -/
def convFactor : DepthUnit → ℚ
  | DepthUnit.metric => INCH_TO_MM
  | DepthUnit.us => 1

/-- `calculateHyetograph(inputs)` from `src/unnamed/part_003` (the canonical
per-duration-curve calculator), with the module-level curve store passed
explicitly. -/
def calculateHyetograph (store : CurveKey → Option DistributionData)
    (inputs : CalculationInputs) : CalculationResult :=
  if inputs.totalDepthInput ≤ 0 ∨ inputs.timeStepMinutes ≤ 0 then
    createEmptyResult
  else
    match store ⟨inputs.stormCategory, inputs.stormSubType,
        inputs.durationInput⟩ with
    | none => createEmptyResult
    | some baseData =>
        if baseData.time_minutes.length < 2 then createEmptyResult
        else
          let conversionFactor : ℚ := convFactor inputs.depthUnit
          let totalDepthInches := inputs.totalDepthInput / conversionFactor
          let D := inputs.durationInput * 60
          let ts := targetTimes D inputs.timeStepMinutes
          let cum := targetCumulative baseData totalDepthInches ts
          let steps := buildSteps conversionFactor (ts.zip cum)
          let finalIntensities := steps.map (fun s => s.intensity)
          { labels :=
              steps.map (fun s => formatTimeLabel s.timeStart D) ++
                (if 0 < ts.length then [formatTimeLabel D D] else [])
            intensityData := finalIntensities
            peakIntensity :=
              finalIntensities.foldl (fun p v => if p < v then v else p) 0
            totalDepthActual := emittedDiffSum (ts.zip cum) * conversionFactor
            intensityUnit :=
              match inputs.depthUnit with
              | DepthUnit.metric => "mm/hr"
              | DepthUnit.us => "in/hr"
            depthUnit :=
              match inputs.depthUnit with
              | DepthUnit.metric => "mm"
              | DepthUnit.us => "in"
            detailedData := steps }

/-! ### Reduction lemmas for `calculateHyetograph` -/

/-- On the main path (valid numeric inputs, curve found, at least two
points) the result is the assembled record. -/
theorem calculateHyetograph_main (store : CurveKey → Option DistributionData)
    (inputs : CalculationInputs) (baseData : DistributionData)
    (hnum : ¬ (inputs.totalDepthInput ≤ 0 ∨ inputs.timeStepMinutes ≤ 0))
    (hstore : store ⟨inputs.stormCategory, inputs.stormSubType,
      inputs.durationInput⟩ = some baseData)
    (hpts : ¬ baseData.time_minutes.length < 2) :
    calculateHyetograph store inputs =
      { labels :=
          (buildSteps (convFactor inputs.depthUnit)
              ((targetTimes (inputs.durationInput * 60) inputs.timeStepMinutes).zip
                (targetCumulative baseData
                  (inputs.totalDepthInput / convFactor inputs.depthUnit)
                  (targetTimes (inputs.durationInput * 60)
                    inputs.timeStepMinutes)))).map
            (fun s => formatTimeLabel s.timeStart (inputs.durationInput * 60)) ++
            (if 0 < (targetTimes (inputs.durationInput * 60)
                inputs.timeStepMinutes).length then
              [formatTimeLabel (inputs.durationInput * 60)
                (inputs.durationInput * 60)]
            else [])
        intensityData :=
          (buildSteps (convFactor inputs.depthUnit)
              ((targetTimes (inputs.durationInput * 60) inputs.timeStepMinutes).zip
                (targetCumulative baseData
                  (inputs.totalDepthInput / convFactor inputs.depthUnit)
                  (targetTimes (inputs.durationInput * 60)
                    inputs.timeStepMinutes)))).map
            (fun s => s.intensity)
        peakIntensity :=
          ((buildSteps (convFactor inputs.depthUnit)
              ((targetTimes (inputs.durationInput * 60) inputs.timeStepMinutes).zip
                (targetCumulative baseData
                  (inputs.totalDepthInput / convFactor inputs.depthUnit)
                  (targetTimes (inputs.durationInput * 60)
                    inputs.timeStepMinutes)))).map
            (fun s => s.intensity)).foldl (fun p v => if p < v then v else p) 0
        totalDepthActual :=
          emittedDiffSum
              ((targetTimes (inputs.durationInput * 60) inputs.timeStepMinutes).zip
                (targetCumulative baseData
                  (inputs.totalDepthInput / convFactor inputs.depthUnit)
                  (targetTimes (inputs.durationInput * 60)
                    inputs.timeStepMinutes))) *
            convFactor inputs.depthUnit
        intensityUnit :=
          match inputs.depthUnit with
          | DepthUnit.metric => "mm/hr"
          | DepthUnit.us => "in/hr"
        depthUnit :=
          match inputs.depthUnit with
          | DepthUnit.metric => "mm"
          | DepthUnit.us => "in"
        detailedData :=
          buildSteps (convFactor inputs.depthUnit)
            ((targetTimes (inputs.durationInput * 60) inputs.timeStepMinutes).zip
              (targetCumulative baseData
                (inputs.totalDepthInput / convFactor inputs.depthUnit)
                (targetTimes (inputs.durationInput * 60)
                  inputs.timeStepMinutes))) } := by
  unfold calculateHyetograph
  rw [if_neg hnum, hstore]
  simp only [if_neg hpts]

/-! ### Claim C2 -/

/-- C2: whenever the curve key is absent from the store, or the total depth
is non-positive, or the time step is non-positive, `calculateHyetograph`
returns the empty sentinel result: no detailed steps, zero peak intensity,
zero actual depth, no labels.  (The function is total, so no exception is
possible.) -/
theorem calculateHyetograph_empty_on_invalid
    (store : CurveKey → Option DistributionData) (inputs : CalculationInputs)
    (h : store ⟨inputs.stormCategory, inputs.stormSubType,
        inputs.durationInput⟩ = none ∨
      inputs.totalDepthInput ≤ 0 ∨ inputs.timeStepMinutes ≤ 0) :
    calculateHyetograph store inputs = createEmptyResult ∧
    (calculateHyetograph store inputs).detailedData = [] ∧
    (calculateHyetograph store inputs).peakIntensity = 0 ∧
    (calculateHyetograph store inputs).totalDepthActual = 0 ∧
    (calculateHyetograph store inputs).labels = [] := by
  have hempty : calculateHyetograph store inputs = createEmptyResult := by
    unfold calculateHyetograph
    by_cases hnum : inputs.totalDepthInput ≤ 0 ∨ inputs.timeStepMinutes ≤ 0
    · rw [if_pos hnum]
    · rw [if_neg hnum]
      rcases h with hs | hd | ht
      · rw [hs]
      · exact absurd (Or.inl hd) hnum
      · exact absurd (Or.inr ht) hnum
  exact ⟨hempty, by rw [hempty]; rfl, by rw [hempty]; rfl,
    by rw [hempty]; rfl, by rw [hempty]; rfl⟩

/-- Witness for C2: a store with no entries and an otherwise plausible
request yield the sentinel. -/
theorem calculateHyetograph_empty_witness :
    ((fun _ : CurveKey => (none : Option DistributionData))
        ⟨"SCS", "Type II", 24⟩ = none ∨
      (1 : ℚ) ≤ 0 ∨ (6 : ℚ) ≤ 0) ∧
    calculateHyetograph (fun _ => none)
      ⟨1, 24, "SCS", "Type II", 6, DepthUnit.us⟩ = createEmptyResult :=
  ⟨Or.inl rfl,
    (calculateHyetograph_empty_on_invalid (fun _ => none)
      ⟨1, 24, "SCS", "Type II", 6, DepthUnit.us⟩ (Or.inl rfl)).1⟩

/-! ### The emission loop when no interval is skipped

`gap` below is the property that every consecutive pair of boundaries is
separated by more than the `1e-6` skip tolerance. -/

theorem buildSteps_nil (conv : ℚ) : buildSteps conv [] = [] := rfl

theorem buildSteps_single (conv : ℚ) (p : ℚ × ℚ) :
    buildSteps conv [p] = [] := by
  obtain ⟨t0, c0⟩ := p
  rfl

theorem emittedDiffSum_nil : emittedDiffSum [] = 0 := rfl

theorem emittedDiffSum_single (p : ℚ × ℚ) : emittedDiffSum [p] = 0 := by
  obtain ⟨t0, c0⟩ := p
  rfl

theorem buildSteps_cons (conv : ℚ) (p q : ℚ × ℚ) (rest : List (ℚ × ℚ))
    (h : tol < q.1 - p.1) :
    buildSteps conv (p :: q :: rest) =
      { timeStart := p.1
        timeEnd := q.1
        intensity := (q.2 - p.2) / ((q.1 - p.1) / 60) * conv
        depthStep := (q.2 - p.2) * conv
        cumulativeDepth := q.2 * conv } :: buildSteps conv (q :: rest) := by
  obtain ⟨t0, c0⟩ := p
  obtain ⟨t1, c1⟩ := q
  rw [buildSteps, if_neg (not_le.mpr h)]

theorem buildSteps_skip (conv : ℚ) (p q : ℚ × ℚ) (rest : List (ℚ × ℚ))
    (h : q.1 - p.1 ≤ tol) :
    buildSteps conv (p :: q :: rest) = buildSteps conv (q :: rest) := by
  obtain ⟨t0, c0⟩ := p
  obtain ⟨t1, c1⟩ := q
  rw [buildSteps, if_pos h]

theorem emittedDiffSum_cons (p q : ℚ × ℚ) (rest : List (ℚ × ℚ))
    (h : tol < q.1 - p.1) :
    emittedDiffSum (p :: q :: rest) =
      (q.2 - p.2) + emittedDiffSum (q :: rest) := by
  obtain ⟨t0, c0⟩ := p
  obtain ⟨t1, c1⟩ := q
  rw [emittedDiffSum, if_neg (not_le.mpr h)]

theorem emittedDiffSum_skip (p q : ℚ × ℚ) (rest : List (ℚ × ℚ))
    (h : q.1 - p.1 ≤ tol) :
    emittedDiffSum (p :: q :: rest) = emittedDiffSum (q :: rest) := by
  obtain ⟨t0, c0⟩ := p
  obtain ⟨t1, c1⟩ := q
  rw [emittedDiffSum, if_pos h]

theorem buildSteps_noskip_length (conv : ℚ) :
    ∀ pairs : List (ℚ × ℚ),
      List.Chain' (fun a b => tol < b.1 - a.1) pairs →
      (buildSteps conv pairs).length = pairs.length - 1
  | [], _ => rfl
  | [_], _ => rfl
  | p :: q :: rest, h => by
      rw [List.chain'_cons] at h
      rw [buildSteps_cons conv p q rest h.1]
      have ih := buildSteps_noskip_length conv (q :: rest) h.2
      simp only [List.length_cons] at ih ⊢
      omega

theorem buildSteps_noskip_start (conv : ℚ) :
    ∀ (pairs : List (ℚ × ℚ)) (k : ℕ),
      List.Chain' (fun a b => tol < b.1 - a.1) pairs →
      k + 1 < pairs.length →
      ((buildSteps conv pairs).getD k default).timeStart =
        (pairs.getD k (0, 0)).1
  | [], _, _, hk => by simp at hk
  | [_], _, _, hk => by simp at hk
  | p :: q :: rest, 0, h, _ => by
      rw [List.chain'_cons] at h
      rw [buildSteps_cons conv p q rest h.1]
      rfl
  | p :: q :: rest, k + 1, h, hk => by
      rw [List.chain'_cons] at h
      rw [buildSteps_cons conv p q rest h.1]
      have ih := buildSteps_noskip_start conv (q :: rest) k h.2
        (by simp only [List.length_cons] at hk ⊢; omega)
      simpa using ih

theorem buildSteps_noskip_end (conv : ℚ) :
    ∀ (pairs : List (ℚ × ℚ)) (k : ℕ),
      List.Chain' (fun a b => tol < b.1 - a.1) pairs →
      k + 1 < pairs.length →
      ((buildSteps conv pairs).getD k default).timeEnd =
        (pairs.getD (k + 1) (0, 0)).1
  | [], _, _, hk => by simp at hk
  | [_], _, _, hk => by simp at hk
  | p :: q :: rest, 0, h, _ => by
      rw [List.chain'_cons] at h
      rw [buildSteps_cons conv p q rest h.1]
      rfl
  | p :: q :: rest, k + 1, h, hk => by
      rw [List.chain'_cons] at h
      rw [buildSteps_cons conv p q rest h.1]
      have ih := buildSteps_noskip_end conv (q :: rest) k h.2
        (by simp only [List.length_cons] at hk ⊢; omega)
      simpa using ih

theorem buildSteps_noskip_chain (conv : ℚ) :
    ∀ pairs : List (ℚ × ℚ),
      List.Chain' (fun a b => tol < b.1 - a.1) pairs →
      List.Chain' (fun a b => a.timeEnd = b.timeStart)
        (buildSteps conv pairs)
  | [], _ => List.chain'_nil
  | [_], _ => List.chain'_nil
  | p :: q :: rest, h => by
      rw [List.chain'_cons] at h
      rw [buildSteps_cons conv p q rest h.1]
      have ih := buildSteps_noskip_chain conv (q :: rest) h.2
      rw [List.chain'_cons']
      refine ⟨?_, ih⟩
      intro y hy
      cases rest with
      | nil => rw [buildSteps_single] at hy; simp at hy
      | cons r rest' =>
          rw [List.chain'_cons] at h
          rw [buildSteps_cons conv q r rest' h.2.1] at hy
          simp only [List.head?_cons, Option.mem_def, Option.some.injEq] at hy
          rw [← hy]

theorem emittedDiffSum_noskip :
    ∀ pairs : List (ℚ × ℚ),
      List.Chain' (fun a b => tol < b.1 - a.1) pairs →
      1 ≤ pairs.length →
      emittedDiffSum pairs =
        (pairs.getD (pairs.length - 1) (0, 0)).2 - (pairs.getD 0 (0, 0)).2
  | [], _, hk => by simp at hk
  | [p], _, _ => by
      rw [emittedDiffSum_single]
      simp
  | p :: q :: rest, h, _ => by
      rw [List.chain'_cons] at h
      rw [emittedDiffSum_cons p q rest h.1]
      have ih := emittedDiffSum_noskip (q :: rest) h.2 (by simp)
      rw [ih]
      have hidx : (p :: q :: rest).getD ((p :: q :: rest).length - 1) (0, 0) =
          (q :: rest).getD ((q :: rest).length - 1) (0, 0) := by
        have hn : (p :: q :: rest).length - 1 = ((q :: rest).length - 1) + 1 := by
          simp only [List.length_cons]; omega
        rw [hn, List.getD_cons_succ]
      rw [hidx]
      simp only [List.getD_cons_zero]
      ring

theorem buildSteps_depthSum (conv : ℚ) :
    ∀ pairs : List (ℚ × ℚ),
      ((buildSteps conv pairs).map (fun s => s.depthStep)).sum =
        conv * emittedDiffSum pairs
  | [] => by rw [buildSteps_nil, emittedDiffSum_nil]; simp
  | [p] => by rw [buildSteps_single, emittedDiffSum_single]; simp
  | p :: q :: rest => by
      by_cases h : q.1 - p.1 ≤ tol
      · rw [buildSteps_skip conv p q rest h, emittedDiffSum_skip p q rest h]
        exact buildSteps_depthSum conv (q :: rest)
      · rw [buildSteps_cons conv p q rest (not_le.mp h),
          emittedDiffSum_cons p q rest (not_le.mp h)]
        have ih := buildSteps_depthSum conv (q :: rest)
        simp only [List.map_cons, List.sum_cons, ih]
        ring

/-! ### Structure of the target time boundaries -/

theorem numSteps_pos {D dt : ℚ} (hD : 0 < D) (hdt : 0 < dt) :
    1 ≤ numSteps D dt := by
  unfold numSteps
  have h1 : (0 : ℤ) < ⌈D / dt⌉ := Int.ceil_pos.mpr (div_pos hD hdt)
  omega

theorem numSteps_cast {D dt : ℚ} (hD : 0 < D) (hdt : 0 < dt) :
    ((numSteps D dt : ℤ)) = ⌈D / dt⌉ := by
  unfold numSteps
  have h1 : (0 : ℤ) < ⌈D / dt⌉ := Int.ceil_pos.mpr (div_pos hD hdt)
  omega

theorem le_numSteps_mul {D dt : ℚ} (hD : 0 < D) (hdt : 0 < dt) :
    D ≤ (numSteps D dt : ℚ) * dt := by
  have h := Int.le_ceil (D / dt)
  have hcast : ((numSteps D dt : ℚ)) = ((⌈D / dt⌉ : ℤ) : ℚ) := by
    exact_mod_cast congrArg (fun z : ℤ => (z : ℚ)) (numSteps_cast hD hdt)
  rw [hcast]
  rw [div_le_iff₀ hdt] at h
  exact h

theorem numSteps_pred_mul_lt {D dt : ℚ} (hD : 0 < D) (hdt : 0 < dt) :
    ((numSteps D dt : ℚ) - 1) * dt < D := by
  have h := Int.ceil_lt_add_one (D / dt)
  have hcast : ((numSteps D dt : ℚ)) = ((⌈D / dt⌉ : ℤ) : ℚ) := by
    exact_mod_cast congrArg (fun z : ℤ => (z : ℚ)) (numSteps_cast hD hdt)
  rw [hcast]
  have h2 : ((⌈D / dt⌉ : ℤ) : ℚ) - 1 < D / dt := by linarith
  calc (((⌈D / dt⌉ : ℤ) : ℚ) - 1) * dt < (D / dt) * dt :=
        mul_lt_mul_of_pos_right h2 hdt
    _ = D := div_mul_cancel₀ D (ne_of_gt hdt)

theorem targetTimesRaw_eq {D dt : ℚ} (hD : 0 < D) (hdt : 0 < dt) :
    targetTimesRaw D dt =
      (List.range (numSteps D dt)).map (fun i : ℕ => (i : ℚ) * dt) ++ [D] := by
  unfold targetTimesRaw
  rw [List.range_succ, List.map_append]
  congr 1
  · apply List.map_congr_left
    intro i hi
    rw [List.mem_range] at hi
    apply min_eq_left
    have hle : (i : ℚ) ≤ (numSteps D dt : ℚ) - 1 := by
      have : (i : ℚ) + 1 ≤ (numSteps D dt : ℚ) := by exact_mod_cast hi
      linarith
    calc (i : ℚ) * dt ≤ ((numSteps D dt : ℚ) - 1) * dt :=
          mul_le_mul_of_nonneg_right hle hdt.le
      _ ≤ D := le_of_lt (numSteps_pred_mul_lt hD hdt)
  · simp [min_eq_right (le_numSteps_mul hD hdt)]

theorem getD_append_last (A : List ℚ) (D : ℚ) :
    (A ++ [D]).getD A.length 0 = D := by
  rw [List.getD_eq_getElem _ 0 (by simp)]
  rw [List.getElem_append_right (le_refl A.length)]
  simp

theorem getD_append_left_of_lt (A l : List ℚ) (k : ℕ) (h : k < A.length) :
    (A ++ l).getD k 0 = A.getD k 0 := by
  rw [List.getD_eq_getElem _ 0 (by simp; omega),
    List.getD_eq_getElem _ 0 h]
  exact List.getElem_append_left _

theorem rangeMul_getD (n k : ℕ) (dt : ℚ) (h : k < n) :
    ((List.range n).map (fun i : ℕ => (i : ℚ) * dt)).getD k 0 = (k : ℚ) * dt := by
  rw [List.getD_eq_getElem _ 0 (by simpa using h)]
  rw [List.getElem_map]
  congr 1
  rw [List.getElem_range]

theorem targetTimes_eq {D dt : ℚ} (hD : 0 < D) (hdt : 0 < dt)
    (hgap : tol < D - ((numSteps D dt : ℚ) - 1) * dt) :
    targetTimes D dt =
      (List.range (numSteps D dt)).map (fun i : ℕ => (i : ℚ) * dt) ++ [D] := by
  have hn1 := numSteps_pos hD hdt
  have hlenA : ((List.range (numSteps D dt)).map
      (fun i : ℕ => (i : ℚ) * dt)).length = numSteps D dt := by simp
  have hlast : ((List.range (numSteps D dt)).map (fun i : ℕ => (i : ℚ) * dt) ++
      [D]).getD (numSteps D dt) 0 = D := by
    have h := getD_append_last
      ((List.range (numSteps D dt)).map (fun i : ℕ => (i : ℚ) * dt)) D
    rwa [hlenA] at h
  have hprev : ((List.range (numSteps D dt)).map (fun i : ℕ => (i : ℚ) * dt) ++
      [D]).getD (numSteps D dt - 1) 0 = ((numSteps D dt - 1 : ℕ) : ℚ) * dt := by
    rw [getD_append_left_of_lt _ _ _ (by omega)]
    exact rangeMul_getD _ _ dt (by omega)
  unfold targetTimes
  rw [targetTimesRaw_eq hD hdt]
  have hlen : ((List.range (numSteps D dt)).map (fun i : ℕ => (i : ℚ) * dt) ++
      [D]).length = numSteps D dt + 1 := by simp
  have hcastp : ((numSteps D dt - 1 : ℕ) : ℚ) = (numSteps D dt : ℚ) - 1 := by
    push_cast [Nat.cast_sub hn1]
    ring
  have hpop : popDup ((List.range (numSteps D dt)).map
      (fun i : ℕ => (i : ℚ) * dt) ++ [D]) =
      (List.range (numSteps D dt)).map (fun i : ℕ => (i : ℚ) * dt) ++ [D] := by
    unfold popDup
    rw [if_neg]
    rintro ⟨-, habs⟩
    rw [hlen] at habs
    have h1 : numSteps D dt + 1 - 1 = numSteps D dt := by omega
    have h2 : numSteps D dt + 1 - 2 = numSteps D dt - 1 := by omega
    rw [h1, h2, hlast, hprev, hcastp] at habs
    rw [abs_of_pos (by linarith [tol_pos])] at habs
    linarith
  rw [hpop]
  unfold forceLast
  rw [if_neg]
  rintro ⟨-, habs⟩
  rw [hlen] at habs
  have h1 : numSteps D dt + 1 - 1 = numSteps D dt := by omega
  rw [h1, hlast] at habs
  simp at habs
  exact absurd habs (not_lt.mpr (le_of_lt tol_pos))

/-- The explicit boundary list is separated by more than the skip
tolerance (`dt` between inner boundaries, the final partial interval by
hypothesis). -/
theorem targetTimes_chain {D dt : ℚ} (hD : 0 < D) (hdt : 0 < dt)
    (hgap : tol < D - ((numSteps D dt : ℚ) - 1) * dt) :
    List.Chain' (fun a b => tol < b - a) (targetTimes D dt) := by
  have hn1 := numSteps_pos hD hdt
  have htoldt : tol < dt := by
    have hd : D - ((numSteps D dt : ℚ) - 1) * dt ≤ dt := by
      have := le_numSteps_mul hD hdt
      nlinarith
    linarith
  obtain ⟨m, hm⟩ : ∃ m, numSteps D dt = m + 1 := ⟨numSteps D dt - 1, by omega⟩
  rw [targetTimes_eq hD hdt hgap, List.chain'_append]
  refine ⟨?_, List.chain'_singleton D, ?_⟩
  · rw [List.chain'_map, hm, List.chain'_range_succ]
    intro k _
    have h1 : ((k.succ : ℕ) : ℚ) * dt - (k : ℚ) * dt = dt := by
      push_cast
      ring
    linarith [h1]
  · intro x hx y hy
    simp only [List.head?_cons, Option.mem_def, Option.some.injEq] at hy
    rw [List.getLast?_map] at hx
    rw [hm, List.range_succ, List.getLast?_concat] at hx
    simp only [Option.map_some', Option.mem_def, Option.some.injEq] at hx
    subst hx
    subst hy
    have hcast : ((m : ℕ) : ℚ) = (numSteps D dt : ℚ) - 1 := by
      rw [hm]
      push_cast
      ring
    rw [hcast]
    linarith

/-! ### Helpers tying boundaries, cumulative depths, and emitted steps -/

theorem targetCumulative_length (b : DistributionData) (dI : ℚ)
    (ts : List ℚ) (h : ts ≠ []) :
    (targetCumulative b dI ts).length = ts.length := by
  unfold targetCumulative
  have hpos : 1 ≤ ts.length := List.length_pos.mpr h
  simp only [List.length_cons, List.length_map, List.length_drop]
  omega

theorem targetCumulative_getD_zero (b : DistributionData) (dI : ℚ)
    (ts : List ℚ) : (targetCumulative b dI ts).getD 0 0 = 0 := rfl

theorem getD_drop_one (l : List ℚ) (j : ℕ) (h : j + 1 < l.length) :
    (l.drop 1).getD j 0 = l.getD (j + 1) 0 := by
  rw [List.getD_eq_getElem _ 0 (by simp; omega), List.getD_eq_getElem _ 0 h]
  rw [List.getElem_drop]
  congr 1
  omega

theorem targetCumulative_getD (b : DistributionData) (dI : ℚ)
    (ts : List ℚ) (k : ℕ) (hk1 : 1 ≤ k) (hk : k < ts.length) :
    (targetCumulative b dI ts).getD k 0 =
      linearInterpolate (ts.getD k 0) b.time_minutes b.cumulative_fraction *
        dI := by
  unfold targetCumulative
  obtain ⟨j, hj⟩ : ∃ j, k = j + 1 := ⟨k - 1, by omega⟩
  subst hj
  rw [List.getD_cons_succ]
  have hjlen : j < (ts.drop 1).length := by simp; omega
  rw [List.getD_eq_getElem _ 0 (by simpa using hjlen), List.getElem_map]
  rw [← List.getD_eq_getElem _ 0 hjlen, getD_drop_one ts j (by omega)]

theorem zip_getD (ts cs : List ℚ) (k : ℕ) (hk : k < ts.length)
    (hk2 : k < cs.length) :
    (ts.zip cs).getD k (0, 0) = (ts.getD k 0, cs.getD k 0) := by
  rw [List.getD_eq_getElem _ _ (by simp; omega), List.getElem_zip,
    List.getD_eq_getElem _ 0 hk, List.getD_eq_getElem _ 0 hk2]

theorem chain_zip_fst :
    ∀ (ts cs : List ℚ),
      List.Chain' (fun a b => tol < b - a) ts →
      List.Chain' (fun a b : ℚ × ℚ => tol < b.1 - a.1) (ts.zip cs)
  | [], _, _ => by simp
  | [t], cs, _ => by
      cases cs with
      | nil => simp
      | cons c cs' => exact List.chain'_singleton (t, c)
  | t1 :: t2 :: ts', [], _ => by simp
  | t1 :: t2 :: ts', [c1], _ => by
      exact List.chain'_singleton (t1, c1)
  | t1 :: t2 :: ts', c1 :: c2 :: cs', hch => by
      rw [List.chain'_cons] at hch
      rw [List.zip_cons_cons, List.zip_cons_cons, List.chain'_cons]
      refine ⟨hch.1, ?_⟩
      have := chain_zip_fst (t2 :: ts') (c2 :: cs') hch.2
      rwa [List.zip_cons_cons] at this

/-! ### Claim C4 -/

/-- Counterexample to C4 as stated: with time step `1440 - 1e-6` minutes for
a 24-hour storm, the final boundary interval has length exactly `1e-6`, is
skipped by the `<= 1e-6` guard, and so only one step is emitted although
`ceil(1440 / timeStep) = 2`, and the last emitted step ends at the time
step, not at 1440. -/
theorem hyetograph_partition_cex :
    ((⌈((24 : ℚ) * 60) / (1439999999 / 1000000)⌉ : ℤ) = 2) ∧
    (calculateHyetograph (fun _ => some ⟨[0, 1440], [0, 1]⟩)
      ⟨1, 24, "SCS", "Type II", 1439999999 / 1000000,
        DepthUnit.us⟩).detailedData.length = 1 ∧
    ((calculateHyetograph (fun _ => some ⟨[0, 1440], [0, 1]⟩)
      ⟨1, 24, "SCS", "Type II", 1439999999 / 1000000,
        DepthUnit.us⟩).detailedData.getD 0 default).timeEnd ≠ 24 * 60 := by
  with_unfolding_all decide

/-- C4 (amended): for an accepted request whose final partial interval
`D - (ceil(D/dt) - 1)·dt` exceeds the `1e-6`-minute skip tolerance (`D` the
duration in minutes, `dt` the time step), the emitted steps partition
`[0, D]`: `ceil(D/dt)` many steps, starting at 0, contiguous, ending
exactly at `D`.  (Without that proviso the final interval is dropped, as
the counterexample shows.) -/
theorem hyetograph_partition (store : CurveKey → Option DistributionData)
    (inputs : CalculationInputs) (baseData : DistributionData)
    (hd : 0 < inputs.totalDepthInput)
    (ht : 0 < inputs.timeStepMinutes)
    (hD : 0 < inputs.durationInput)
    (hstore : store ⟨inputs.stormCategory, inputs.stormSubType,
      inputs.durationInput⟩ = some baseData)
    (hpts : 2 ≤ baseData.time_minutes.length)
    (hlastgap : tol < inputs.durationInput * 60 -
      ((numSteps (inputs.durationInput * 60) inputs.timeStepMinutes : ℚ) - 1) *
        inputs.timeStepMinutes) :
    ((calculateHyetograph store inputs).detailedData.length : ℤ) =
        ⌈(inputs.durationInput * 60) / inputs.timeStepMinutes⌉ ∧
    0 < (calculateHyetograph store inputs).detailedData.length ∧
    ((calculateHyetograph store inputs).detailedData.getD 0
      default).timeStart = 0 ∧
    ((calculateHyetograph store inputs).detailedData.getD
        ((calculateHyetograph store inputs).detailedData.length - 1)
        default).timeEnd = inputs.durationInput * 60 ∧
    List.Chain' (fun a b => a.timeEnd = b.timeStart)
      (calculateHyetograph store inputs).detailedData := by
  have hD60 : 0 < inputs.durationInput * 60 := by linarith
  have hmain := calculateHyetograph_main store inputs baseData
    (by push_neg; constructor <;> linarith) hstore (by omega)
  have hdet : (calculateHyetograph store inputs).detailedData =
      buildSteps (convFactor inputs.depthUnit)
        ((targetTimes (inputs.durationInput * 60) inputs.timeStepMinutes).zip
          (targetCumulative baseData
            (inputs.totalDepthInput / convFactor inputs.depthUnit)
            (targetTimes (inputs.durationInput * 60)
              inputs.timeStepMinutes))) := by
    rw [hmain]
  rw [hdet]
  set D := inputs.durationInput * 60 with hDdef
  set dt := inputs.timeStepMinutes with hdtdef
  set m := numSteps D dt with hmdef
  have hm1 : 1 ≤ m := numSteps_pos hD60 ht
  have hts := targetTimes_eq hD60 ht hlastgap
  have htschain := targetTimes_chain hD60 ht hlastgap
  set ts := targetTimes D dt with htsdef
  have htslen : ts.length = m + 1 := by rw [hts]; simp
  have htsne : ts ≠ [] := by
    intro hcon
    rw [hcon] at htslen
    simp at htslen
  set cum := targetCumulative baseData
    (inputs.totalDepthInput / convFactor inputs.depthUnit) ts with hcumdef
  have hcumlen : cum.length = ts.length :=
    targetCumulative_length _ _ ts htsne
  have hpairslen : (ts.zip cum).length = m + 1 := by
    rw [List.length_zip, hcumlen, htslen]
    omega
  have hpchain : List.Chain' (fun a b : ℚ × ℚ => tol < b.1 - a.1)
      (ts.zip cum) := chain_zip_fst ts cum htschain
  have hlen := buildSteps_noskip_length (convFactor inputs.depthUnit)
    (ts.zip cum) hpchain
  rw [hpairslen] at hlen
  simp only [Nat.add_sub_cancel] at hlen
  have hts0 : ts.getD 0 0 = 0 := by
    rw [hts, getD_append_left_of_lt _ _ _ (by simp; omega),
      rangeMul_getD _ _ dt (by omega)]
    simp
  have htsm : ts.getD m 0 = D := by
    rw [hts]
    have h := getD_append_last
      ((List.range m).map (fun i : ℕ => (i : ℚ) * dt)) D
    simpa using h
  refine ⟨?_, ?_, ?_, ?_, ?_⟩
  · rw [hlen, hmdef, numSteps_cast hD60 ht]
  · omega
  · rw [buildSteps_noskip_start _ _ 0 hpchain (by omega),
      zip_getD ts cum 0 (by omega) (by omega), hts0]
  · rw [hlen]
    rw [buildSteps_noskip_end _ _ (m - 1) hpchain (by omega),
      zip_getD ts cum (m - 1 + 1) (by omega) (by omega)]
    have : m - 1 + 1 = m := by omega
    rw [this, htsm]
  · exact buildSteps_noskip_chain _ _ hpchain

/-- Witness for the amended C4 at a small concrete input (duration 1 h,
time step 25 min: three steps 0–25–50–60). -/
theorem hyetograph_partition_witness :
    ((0 : ℚ) < 2 ∧ (0 : ℚ) < 25 ∧ (0 : ℚ) < 1 ∧
      (2 : ℕ) ≤ ([(0 : ℚ), 60] : List ℚ).length ∧
      tol < (1 : ℚ) * 60 - ((numSteps ((1 : ℚ) * 60) 25 : ℚ) - 1) * 25) ∧
    ((calculateHyetograph (fun _ => some ⟨[0, 60], [0, 1]⟩)
        ⟨2, 1, "SCS", "Type II", 25, DepthUnit.us⟩).detailedData.length : ℤ) =
      ⌈((1 : ℚ) * 60) / 25⌉ ∧
    0 < (calculateHyetograph (fun _ => some ⟨[0, 60], [0, 1]⟩)
        ⟨2, 1, "SCS", "Type II", 25, DepthUnit.us⟩).detailedData.length ∧
    ((calculateHyetograph (fun _ => some ⟨[0, 60], [0, 1]⟩)
        ⟨2, 1, "SCS", "Type II", 25, DepthUnit.us⟩).detailedData.getD 0
      default).timeStart = 0 ∧
    ((calculateHyetograph (fun _ => some ⟨[0, 60], [0, 1]⟩)
        ⟨2, 1, "SCS", "Type II", 25, DepthUnit.us⟩).detailedData.getD
        ((calculateHyetograph (fun _ => some ⟨[0, 60], [0, 1]⟩)
            ⟨2, 1, "SCS", "Type II", 25, DepthUnit.us⟩).detailedData.length - 1)
        default).timeEnd = 1 * 60 ∧
    List.Chain' (fun a b => a.timeEnd = b.timeStart)
      (calculateHyetograph (fun _ => some ⟨[0, 60], [0, 1]⟩)
        ⟨2, 1, "SCS", "Type II", 25, DepthUnit.us⟩).detailedData :=
  ⟨⟨by norm_num, by norm_num, by norm_num, by norm_num,
      by with_unfolding_all decide⟩,
    hyetograph_partition (fun _ => some ⟨[0, 60], [0, 1]⟩)
      ⟨2, 1, "SCS", "Type II", 25, DepthUnit.us⟩ ⟨[0, 60], [0, 1]⟩
      (by norm_num) (by norm_num) (by norm_num) rfl (by norm_num)
      (by with_unfolding_all decide)⟩

/-! ### Claim C1 -/

theorem convFactor_pos (u : DepthUnit) : 0 < convFactor u := by
  cases u <;> norm_num [convFactor, INCH_TO_MM]

/-- Counterexample to C1 as stated: with time step `1440 - 1e-6` for a
24-hour storm and a curve that is flat at 0 until `1439.9999995` minutes
and then jumps to 1, the single emitted step carries zero depth (the probe
time snaps to the flat table point within `1e-6`), the final interval is
skipped, and `totalDepthActual = 0` differs from the requested depth 1 by
100 %. The request is accepted: positive depth and step, curve present
with 3 points, starting at fraction 0, ending at `(1440, 1)`. -/
theorem hyetograph_depth_cex :
    (calculateHyetograph
        (fun _ => some ⟨[0, 2879999999 / 2000000, 1440], [0, 0, 1]⟩)
        ⟨1, 24, "SCS", "Type II", 1439999999 / 1000000,
          DepthUnit.us⟩).totalDepthActual = 0 ∧
    ¬ (|(calculateHyetograph
          (fun _ => some ⟨[0, 2879999999 / 2000000, 1440], [0, 0, 1]⟩)
          ⟨1, 24, "SCS", "Type II", 1439999999 / 1000000,
            DepthUnit.us⟩).totalDepthActual - 1| ≤ 1 / 100) := by
  with_unfolding_all decide

/-- C1 (amended): for an accepted request (positive depth and time step,
curve present with ≥ 2 points, first time 0, first fraction 0, last point
`(D, 1.0)` where `D` is the duration in minutes) whose final partial
interval exceeds the `1e-6`-minute skip tolerance, the sum of the emitted
`depthStep`s and the reported `totalDepthActual` both equal the requested
`totalDepth` exactly — in particular within the claimed 1 % relative
tolerance.  (Without the proviso the final interval may be skipped and the
sum can be arbitrarily far off, as the counterexample shows.) -/
theorem hyetograph_total_depth (store : CurveKey → Option DistributionData)
    (inputs : CalculationInputs) (baseData : DistributionData)
    (hd : 0 < inputs.totalDepthInput)
    (ht : 0 < inputs.timeStepMinutes)
    (hD : 0 < inputs.durationInput)
    (hstore : store ⟨inputs.stormCategory, inputs.stormSubType,
      inputs.durationInput⟩ = some baseData)
    (hpts : 2 ≤ baseData.time_minutes.length)
    (hlens : baseData.time_minutes.length =
      baseData.cumulative_fraction.length)
    (htime0 : baseData.time_minutes.getD 0 0 = 0)
    (hfrac0 : baseData.cumulative_fraction.getD 0 0 = 0)
    (htimelast : baseData.time_minutes.getD
      (baseData.time_minutes.length - 1) 0 = inputs.durationInput * 60)
    (hfraclast : baseData.cumulative_fraction.getD
      (baseData.cumulative_fraction.length - 1) 0 = 1)
    (hlastgap : tol < inputs.durationInput * 60 -
      ((numSteps (inputs.durationInput * 60) inputs.timeStepMinutes : ℚ) - 1) *
        inputs.timeStepMinutes) :
    (((calculateHyetograph store inputs).detailedData.map
        (fun s => s.depthStep)).sum = inputs.totalDepthInput) ∧
    (calculateHyetograph store inputs).totalDepthActual =
      inputs.totalDepthInput ∧
    |(calculateHyetograph store inputs).totalDepthActual -
        inputs.totalDepthInput| ≤ inputs.totalDepthInput / 100 := by
  have hD60 : 0 < inputs.durationInput * 60 := by linarith
  have hmain := calculateHyetograph_main store inputs baseData
    (by push_neg; constructor <;> linarith) hstore (by omega)
  set D := inputs.durationInput * 60 with hDdef
  set dt := inputs.timeStepMinutes with hdtdef
  set m := numSteps D dt with hmdef
  have hm1 : 1 ≤ m := numSteps_pos hD60 ht
  have hts := targetTimes_eq hD60 ht hlastgap
  have htschain := targetTimes_chain hD60 ht hlastgap
  set ts := targetTimes D dt with htsdef
  have htslen : ts.length = m + 1 := by rw [hts]; simp
  have htsne : ts ≠ [] := by
    intro hcon
    rw [hcon] at htslen
    simp at htslen
  set conv := convFactor inputs.depthUnit with hconvdef
  have hconv : 0 < conv := convFactor_pos _
  set dI := inputs.totalDepthInput / conv with hdIdef
  set cum := targetCumulative baseData dI ts with hcumdef
  have hcumlen : cum.length = ts.length :=
    targetCumulative_length _ _ ts htsne
  have hpairslen : (ts.zip cum).length = m + 1 := by
    rw [List.length_zip, hcumlen, htslen]
    omega
  have hpchain : List.Chain' (fun a b : ℚ × ℚ => tol < b.1 - a.1)
      (ts.zip cum) := chain_zip_fst ts cum htschain
  have htsm : ts.getD m 0 = D := by
    rw [hts]
    have h := getD_append_last
      ((List.range m).map (fun i : ℕ => (i : ℚ) * dt)) D
    simpa using h
  -- the interpolated fraction at the final boundary is exactly 1
  have hinterpD : linearInterpolate D baseData.time_minutes
      baseData.cumulative_fraction = 1 := by
    have hc0 : ¬ D ≤ baseData.time_minutes.getD 0 0 := by
      rw [htime0]; linarith
    have hchigh : baseData.time_minutes.getD
        (baseData.time_minutes.length - 1) 0 ≤ D := le_of_eq htimelast
    rw [interp_clamp_high hc0 hchigh, hlens, hfraclast]
  have hcumm : cum.getD m 0 = dI := by
    rw [hcumdef, targetCumulative_getD baseData dI ts m hm1 (by omega),
      htsm, hinterpD, one_mul]
  have hsum : emittedDiffSum (ts.zip cum) = dI := by
    rw [emittedDiffSum_noskip (ts.zip cum) hpchain (by omega), hpairslen]
    have h1 : m + 1 - 1 = m := by omega
    rw [h1, zip_getD ts cum m (by omega) (by omega),
      zip_getD ts cum 0 (by omega) (by omega)]
    simp only [hcumm]
    rw [hcumdef, targetCumulative_getD_zero]
    ring
  have htot : (calculateHyetograph store inputs).totalDepthActual =
      inputs.totalDepthInput := by
    rw [hmain]
    show emittedDiffSum (ts.zip cum) * conv = inputs.totalDepthInput
    rw [hsum, hdIdef, div_mul_cancel₀ _ (ne_of_gt hconv)]
  refine ⟨?_, htot, ?_⟩
  · have hmap : (calculateHyetograph store inputs).detailedData =
        buildSteps conv (ts.zip cum) := by rw [hmain]
    rw [hmap, buildSteps_depthSum, hsum, hdIdef,
      mul_div_cancel₀ _ (ne_of_gt hconv)]
  · rw [htot]
    simp only [sub_self, abs_zero]
    positivity

/-- Witness for the amended C1 at a small concrete input. -/
theorem hyetograph_total_depth_witness :
    ((0 : ℚ) < 2 ∧ (0 : ℚ) < 20 ∧ (0 : ℚ) < 1 ∧
      ([(0 : ℚ), 30, 60] : List ℚ).length = ([(0 : ℚ), 1/2, 1] : List ℚ).length ∧
      tol < (1 : ℚ) * 60 - ((numSteps ((1 : ℚ) * 60) 20 : ℚ) - 1) * 20) ∧
    ((calculateHyetograph (fun _ => some ⟨[0, 30, 60], [0, 1/2, 1]⟩)
        ⟨2, 1, "SCS", "Type II", 20, DepthUnit.us⟩).detailedData.map
      (fun s => s.depthStep)).sum = 2 ∧
    (calculateHyetograph (fun _ => some ⟨[0, 30, 60], [0, 1/2, 1]⟩)
        ⟨2, 1, "SCS", "Type II", 20, DepthUnit.us⟩).totalDepthActual = 2 :=
  ⟨⟨by norm_num, by norm_num, by norm_num, rfl,
      by with_unfolding_all decide⟩,
    (hyetograph_total_depth (fun _ => some ⟨[0, 30, 60], [0, 1/2, 1]⟩)
      ⟨2, 1, "SCS", "Type II", 20, DepthUnit.us⟩ ⟨[0, 30, 60], [0, 1/2, 1]⟩
      (by norm_num) (by norm_num) (by norm_num) rfl (by norm_num) rfl
      (by with_unfolding_all decide) (by with_unfolding_all decide)
      (by with_unfolding_all decide) (by with_unfolding_all decide)
      (by with_unfolding_all decide)).1,
    (hyetograph_total_depth (fun _ => some ⟨[0, 30, 60], [0, 1/2, 1]⟩)
      ⟨2, 1, "SCS", "Type II", 20, DepthUnit.us⟩ ⟨[0, 30, 60], [0, 1/2, 1]⟩
      (by norm_num) (by norm_num) (by norm_num) rfl (by norm_num) rfl
      (by with_unfolding_all decide) (by with_unfolding_all decide)
      (by with_unfolding_all decide) (by with_unfolding_all decide)
      (by with_unfolding_all decide)).2.1⟩

/-! ### Claim C5 -/

/-- A `Chain'` relation restricts to any prefix of the list. -/
theorem chain_isPrefix {α : Type} {R : α → α → Prop} {l₁ l₂ : List α}
    (h : List.Chain' R l₂) (hp : List.IsPrefix l₁ l₂) : List.Chain' R l₁ := by
  obtain ⟨t, rfl⟩ := hp
  exact (List.chain'_append.mp h).1

theorem targetTimesRaw_sorted {D dt : ℚ} (hdt : 0 ≤ dt) :
    List.Chain' (· ≤ ·) (targetTimesRaw D dt) := by
  unfold targetTimesRaw
  rw [List.chain'_map]
  rcases Nat.eq_zero_or_pos (numSteps D dt + 1) with h | h
  · omega
  · obtain ⟨m, hm⟩ : ∃ m, numSteps D dt + 1 = m + 1 := ⟨numSteps D dt, rfl⟩
    rw [hm, List.chain'_range_succ]
    intro k _
    apply min_le_min _ (le_refl D)
    have : (k : ℚ) ≤ ((k.succ : ℕ) : ℚ) := by push_cast; linarith
    nlinarith

theorem targetTimesRaw_le {D dt : ℚ} {x : ℚ} (hx : x ∈ targetTimesRaw D dt) :
    x ≤ D := by
  unfold targetTimesRaw at hx
  rw [List.mem_map] at hx
  obtain ⟨i, -, hi⟩ := hx
  rw [← hi]
  exact min_le_right _ D

theorem targetTimes_sorted {D dt : ℚ} (hdt : 0 ≤ dt) :
    List.Chain' (· ≤ ·) (targetTimes D dt) := by
  have hraw := targetTimesRaw_sorted (D := D) hdt
  have hle : ∀ x ∈ popDup (targetTimesRaw D dt), x ≤ D := by
    intro x hx
    unfold popDup at hx
    split at hx
    · exact targetTimesRaw_le (List.dropLast_subset _ hx)
    · exact targetTimesRaw_le hx
  have hpop : List.Chain' (· ≤ ·) (popDup (targetTimesRaw D dt)) := by
    unfold popDup
    split
    · exact chain_isPrefix hraw (List.dropLast_prefix _)
    · exact hraw
  unfold targetTimes forceLast
  split
  · rw [List.chain'_append]
    refine ⟨chain_isPrefix hpop (List.dropLast_prefix _),
      List.chain'_singleton D, ?_⟩
    intro x hx y hy
    simp only [List.head?_cons, Option.mem_def, Option.some.injEq] at hy
    subst hy
    obtain ⟨hne, hxl⟩ := List.mem_getLast?_eq_getLast hx
    exact hxl ▸ hle _ (List.dropLast_subset _ (hxl ▸ List.getLast_mem hne))
  · exact hpop

theorem chain_zip_snd :
    ∀ (ts cs : List ℚ),
      List.Chain' (· ≤ ·) cs →
      List.Chain' (fun a b : ℚ × ℚ => a.2 ≤ b.2) (ts.zip cs)
  | [], _, _ => by simp
  | [t], cs, _ => by
      cases cs with
      | nil => simp
      | cons c cs' => exact List.chain'_singleton (t, c)
  | t1 :: t2 :: ts', [], _ => by simp
  | t1 :: t2 :: ts', [c1], _ => List.chain'_singleton (t1, c1)
  | t1 :: t2 :: ts', c1 :: c2 :: cs', hch => by
      rw [List.chain'_cons] at hch
      rw [List.zip_cons_cons, List.zip_cons_cons, List.chain'_cons]
      refine ⟨hch.1, ?_⟩
      have := chain_zip_snd (t2 :: ts') (c2 :: cs') hch.2
      rwa [List.zip_cons_cons] at this

theorem buildSteps_nonneg (conv : ℚ) (hconv : 0 ≤ conv) :
    ∀ pairs : List (ℚ × ℚ),
      List.Chain' (fun a b : ℚ × ℚ => a.2 ≤ b.2) pairs →
      ∀ s ∈ buildSteps conv pairs, 0 ≤ s.intensity ∧ 0 ≤ s.depthStep
  | [], _, s, hs => by rw [buildSteps_nil] at hs; simp at hs
  | [p], _, s, hs => by rw [buildSteps_single] at hs; simp at hs
  | p :: q :: rest, hch, s, hs => by
      rw [List.chain'_cons] at hch
      by_cases h : q.1 - p.1 ≤ tol
      · rw [buildSteps_skip conv p q rest h] at hs
        exact buildSteps_nonneg conv hconv (q :: rest) hch.2 s hs
      · rw [buildSteps_cons conv p q rest (not_le.mp h)] at hs
        rcases List.mem_cons.mp hs with hseq | hs'
        · subst hseq
          have hdq : (0 : ℚ) < (q.1 - p.1) / 60 := by
            have h1 := not_le.mp h
            have h2 := tol_pos
            apply div_pos _ (by norm_num)
            linarith
          have hc : 0 ≤ q.2 - p.2 := by linarith [hch.1]
          exact ⟨mul_nonneg (div_nonneg hc hdq.le) hconv,
            mul_nonneg hc hconv⟩
        · exact buildSteps_nonneg conv hconv (q :: rest) hch.2 s hs'

theorem buildSteps_head_cum (conv : ℚ) (hconv : 0 ≤ conv) :
    ∀ pairs : List (ℚ × ℚ),
      List.Chain' (fun a b : ℚ × ℚ => a.2 ≤ b.2) pairs →
      ∀ s ∈ (buildSteps conv pairs).head?,
        (pairs.getD 0 (0, 0)).2 * conv ≤ s.cumulativeDepth
  | [], _, s, hs => by rw [buildSteps_nil] at hs; simp at hs
  | [p], _, s, hs => by rw [buildSteps_single] at hs; simp at hs
  | p :: q :: rest, hch, s, hs => by
      rw [List.chain'_cons] at hch
      by_cases h : q.1 - p.1 ≤ tol
      · rw [buildSteps_skip conv p q rest h] at hs
        have := buildSteps_head_cum conv hconv (q :: rest) hch.2 s hs
        simp only [List.getD_cons_zero] at this ⊢
        calc p.2 * conv ≤ q.2 * conv :=
              mul_le_mul_of_nonneg_right hch.1 hconv
          _ ≤ s.cumulativeDepth := this
      · rw [buildSteps_cons conv p q rest (not_le.mp h)] at hs
        simp only [List.head?_cons, Option.mem_def, Option.some.injEq] at hs
        subst hs
        simp only [List.getD_cons_zero]
        exact mul_le_mul_of_nonneg_right hch.1 hconv

theorem buildSteps_cum_chain (conv : ℚ) (hconv : 0 ≤ conv) :
    ∀ pairs : List (ℚ × ℚ),
      List.Chain' (fun a b : ℚ × ℚ => a.2 ≤ b.2) pairs →
      List.Chain' (fun a b => a.cumulativeDepth ≤ b.cumulativeDepth)
        (buildSteps conv pairs)
  | [], _ => by rw [buildSteps_nil]; exact List.chain'_nil
  | [p], _ => by rw [buildSteps_single]; exact List.chain'_nil
  | p :: q :: rest, hch => by
      rw [List.chain'_cons] at hch
      by_cases h : q.1 - p.1 ≤ tol
      · rw [buildSteps_skip conv p q rest h]
        exact buildSteps_cum_chain conv hconv (q :: rest) hch.2
      · rw [buildSteps_cons conv p q rest (not_le.mp h)]
        rw [List.chain'_cons']
        refine ⟨?_, buildSteps_cum_chain conv hconv (q :: rest) hch.2⟩
        intro y hy
        have := buildSteps_head_cum conv hconv (q :: rest) hch.2 y hy
        simp only [List.getD_cons_zero] at this
        exact this

/-- C5: for every accepted request whose resolved curve satisfies the
`DistributionCurve` invariant (equal lengths, first fraction 0) and has
non-decreasing times and non-decreasing cumulative fractions, every
emitted step has non-negative intensity and non-negative `depthStep`, and
the `cumulativeDepth` values are monotone non-decreasing along the emitted
sequence. -/
theorem hyetograph_nonneg_monotone
    (store : CurveKey → Option DistributionData)
    (inputs : CalculationInputs) (baseData : DistributionData)
    (hd : 0 < inputs.totalDepthInput)
    (ht : 0 < inputs.timeStepMinutes)
    (hstore : store ⟨inputs.stormCategory, inputs.stormSubType,
      inputs.durationInput⟩ = some baseData)
    (hpts : 2 ≤ baseData.time_minutes.length)
    (hlens : baseData.time_minutes.length =
      baseData.cumulative_fraction.length)
    (hsortT : List.Sorted (· ≤ ·) baseData.time_minutes)
    (hsortF : List.Sorted (· ≤ ·) baseData.cumulative_fraction)
    (hfrac0 : baseData.cumulative_fraction.getD 0 0 = 0) :
    (∀ s ∈ (calculateHyetograph store inputs).detailedData,
      0 ≤ s.intensity ∧ 0 ≤ s.depthStep) ∧
    List.Chain' (fun a b => a.cumulativeDepth ≤ b.cumulativeDepth)
      (calculateHyetograph store inputs).detailedData := by
  have hmain := calculateHyetograph_main store inputs baseData
    (by push_neg; constructor <;> linarith) hstore (by omega)
  have hdet : (calculateHyetograph store inputs).detailedData =
      buildSteps (convFactor inputs.depthUnit)
        ((targetTimes (inputs.durationInput * 60) inputs.timeStepMinutes).zip
          (targetCumulative baseData
            (inputs.totalDepthInput / convFactor inputs.depthUnit)
            (targetTimes (inputs.durationInput * 60)
              inputs.timeStepMinutes))) := by rw [hmain]
  rw [hdet]
  set D := inputs.durationInput * 60
  set dt := inputs.timeStepMinutes
  set conv := convFactor inputs.depthUnit with hconvdef
  have hconv : 0 < conv := convFactor_pos _
  set dI := inputs.totalDepthInput / conv with hdIdef
  have hdI : 0 < dI := div_pos hd hconv
  set ts := targetTimes D dt with htsdef
  set cum := targetCumulative baseData dI ts with hcumdef
  -- the interpolated cumulative depths are non-decreasing along `ts`
  have hmonof : ∀ a b : ℚ, a ≤ b →
      linearInterpolate a baseData.time_minutes baseData.cumulative_fraction *
          dI ≤
        linearInterpolate b baseData.time_minutes
          baseData.cumulative_fraction * dI := by
    intro a b hab
    apply mul_le_mul_of_nonneg_right _ hdI.le
    exact interp_mono hsortT hsortF hlens (by omega) hab
  have hnneg : ∀ t : ℚ, 0 ≤
      linearInterpolate t baseData.time_minutes baseData.cumulative_fraction *
        dI := by
    intro t
    apply mul_nonneg _ hdI.le
    have := (interp_global_bounds hsortT hsortF hlens (by omega) (x := t)).1
    rw [hfrac0] at this
    exact this
  have hcumchain : List.Chain' (· ≤ ·) cum := by
    rw [hcumdef]
    unfold targetCumulative
    rw [List.chain'_cons']
    constructor
    · intro y hy
      have hmem : y ∈ (ts.drop 1).map (fun t =>
          linearInterpolate t baseData.time_minutes
            baseData.cumulative_fraction * dI) := List.mem_of_mem_head? hy
      rw [List.mem_map] at hmem
      obtain ⟨t, -, hteq⟩ := hmem
      rw [← hteq]
      exact hnneg t
    · rw [List.chain'_map]
      have hts : List.Chain' (· ≤ ·) (ts.drop 1) := by
        rw [List.drop_one]
        exact (targetTimes_sorted ht.le).tail
      exact hts.imp (fun a b hab => hmonof a b hab)
  have hpchain : List.Chain' (fun a b : ℚ × ℚ => a.2 ≤ b.2) (ts.zip cum) :=
    chain_zip_snd ts cum hcumchain
  exact ⟨buildSteps_nonneg conv hconv.le (ts.zip cum) hpchain,
    buildSteps_cum_chain conv hconv.le (ts.zip cum) hpchain⟩

/-- Witness for C5 at a small concrete input. -/
theorem hyetograph_nonneg_monotone_witness :
    ((0 : ℚ) < 3 ∧ (0 : ℚ) < 15 ∧
      List.Sorted (· ≤ ·) [(0 : ℚ), 30, 60] ∧
      List.Sorted (· ≤ ·) [(0 : ℚ), 1/4, 1]) ∧
    (∀ s ∈ (calculateHyetograph (fun _ => some ⟨[0, 30, 60], [0, 1/4, 1]⟩)
        ⟨3, 1, "SCS", "Type II", 15, DepthUnit.metric⟩).detailedData,
      0 ≤ s.intensity ∧ 0 ≤ s.depthStep) ∧
    List.Chain' (fun a b => a.cumulativeDepth ≤ b.cumulativeDepth)
      (calculateHyetograph (fun _ => some ⟨[0, 30, 60], [0, 1/4, 1]⟩)
        ⟨3, 1, "SCS", "Type II", 15, DepthUnit.metric⟩).detailedData :=
  ⟨⟨by norm_num, by norm_num, by with_unfolding_all decide,
      by with_unfolding_all decide⟩,
    (hyetograph_nonneg_monotone (fun _ => some ⟨[0, 30, 60], [0, 1/4, 1]⟩)
      ⟨3, 1, "SCS", "Type II", 15, DepthUnit.metric⟩ ⟨[0, 30, 60], [0, 1/4, 1]⟩
      (by norm_num) (by norm_num) rfl (by norm_num) rfl
      (by with_unfolding_all decide) (by with_unfolding_all decide)
      (by with_unfolding_all decide)).1,
    (hyetograph_nonneg_monotone (fun _ => some ⟨[0, 30, 60], [0, 1/4, 1]⟩)
      ⟨3, 1, "SCS", "Type II", 15, DepthUnit.metric⟩ ⟨[0, 30, 60], [0, 1/4, 1]⟩
      (by norm_num) (by norm_num) rfl (by norm_num) rfl
      (by with_unfolding_all decide) (by with_unfolding_all decide)
      (by with_unfolding_all decide)).2⟩

/-! ## The curve-store builder's normalisation pass
(`preprocessDistributions`, `src/unnamed/part_003`)

The per-key body transforms one parsed curve.  The two parallel arrays
(`time_minutes`, `cumulative_fraction`) move in lockstep throughout
(pushed, popped and spliced together), so the body is embedded over the
zipped list of `(time, fraction)` points; the mismatched-length guard at
the top is the `none` (skip) case. -/

/-- Step 1 of `preprocessDistributions`: ensure the first point is
`(0, 0)` — insert it if the first time is non-zero, zero the fraction if
the time is 0, then remove a duplicated zero time at index 1. -/
def fixStart (pts : List (ℚ × ℚ)) : List (ℚ × ℚ) :=
  match pts with
  | [] => []
  | (t0, f0) :: rest =>
      if t0 ≠ 0 ∨ f0 ≠ 0 then
        match (if t0 ≠ 0 then (0, 0) :: (t0, f0) :: rest
          else (t0, 0) :: rest) with
        | p :: q :: rest' => if q.1 = 0 then p :: rest' else p :: q :: rest'
        | l => l
      else (t0, f0) :: rest

/-- The `while (... last > expectedEndTime + 1e-3) pop()` loop: drop the
maximal run of trailing points beyond `D + 1e-3`. -/
def popBeyond (D : ℚ) (l : List (ℚ × ℚ)) : List (ℚ × ℚ) :=
  (l.reverse.dropWhile (fun p => decide (D + tolMs < p.1))).reverse

/-- Step 2 of `preprocessDistributions`: trim past the nominal duration,
then append `(D, 1.0)` when the last time is off by more than `1e-3`, else
force the last fraction to `1.0` when it is off by more than `1e-3`. -/
def fixEnd (D : ℚ) (pts : List (ℚ × ℚ)) : List (ℚ × ℚ) :=
  let pts2 := popBeyond D pts
  if pts2.length = 0 then [(0, 0), (D, 1)]
  else
    if tolMs < |(pts2.getD (pts2.length - 1) (0, 0)).1 - D| then
      pts2 ++ [(D, 1)]
    else if tolMs < |(pts2.getD (pts2.length - 1) (0, 0)).2 - 1| then
      pts2.dropLast ++ [((pts2.getD (pts2.length - 1) (0, 0)).1, 1)]
    else pts2

/-- The merge case of step 3: raise the last kept fraction to the maximum
of itself and the current one. -/
def mergeLastFrac (acc : List (ℚ × ℚ)) (f : ℚ) : List (ℚ × ℚ) :=
  acc.dropLast ++
    [((acc.getD (acc.length - 1) (0, 0)).1,
      max (acc.getD (acc.length - 1) (0, 0)).2 f)]

/-- Step 3 of `preprocessDistributions`: the monotonicity filter.  `prev`
is the last kept point (`none` models the initial `-Infinity` sentinels,
which every point passes); a point is kept when its time does not decrease
and its fraction does not drop by more than `1e-6`; equal times merge into
the previous kept point (leaving `prev` unchanged, as in the source). -/
def monoPass : Option (ℚ × ℚ) → List (ℚ × ℚ) → List (ℚ × ℚ) →
    List (ℚ × ℚ)
  | _, acc, [] => acc
  | none, acc, (t, f) :: rest => monoPass (some (t, f)) (acc ++ [(t, f)]) rest
  | some (pt, pf), acc, (t, f) :: rest =>
      if pt ≤ t ∧ pf - tol ≤ f then
        if t = pt ∧ acc ≠ [] then
          monoPass (some (pt, pf)) (mergeLastFrac acc f) rest
        else monoPass (some (t, f)) (acc ++ [(t, f)]) rest
      else monoPass (some (pt, pf)) acc rest

/-- The per-key body of `preprocessDistributions` for nominal duration `D`
minutes: `none` models the `continue` on mismatched lengths (nothing
stored); an empty parsed curve is stored empty; otherwise the three
normalisation steps run. -/
def preprocessCurve (D : ℚ) (sourceData : DistributionData) :
    Option DistributionData :=
  if sourceData.time_minutes.length ≠ sourceData.cumulative_fraction.length
  then none
  else if sourceData.time_minutes.length = 0 then some ⟨[], []⟩
  else
    some
      ⟨(monoPass none []
          (fixEnd D (fixStart
            (sourceData.time_minutes.zip
              sourceData.cumulative_fraction)))).map Prod.fst,
        (monoPass none []
          (fixEnd D (fixStart
            (sourceData.time_minutes.zip
              sourceData.cumulative_fraction)))).map Prod.snd⟩

/-! ### Claim C3: helper lemmas -/

theorem chain_zip_lt_le :
    ∀ (ts cs : List ℚ), List.Chain' (· < ·) ts → List.Chain' (· ≤ ·) cs →
      List.Chain' (fun a b : ℚ × ℚ => a.1 < b.1 ∧ a.2 ≤ b.2) (ts.zip cs)
  | [], _, _, _ => by simp
  | [t], cs, _, _ => by
      cases cs with
      | nil => simp
      | cons c cs' => exact List.chain'_singleton (t, c)
  | t1 :: t2 :: ts', [], _, _ => by simp
  | t1 :: t2 :: ts', [c1], _, _ => List.chain'_singleton (t1, c1)
  | t1 :: t2 :: ts', c1 :: c2 :: cs', hts, hcs => by
      rw [List.chain'_cons] at hts hcs
      rw [List.zip_cons_cons, List.zip_cons_cons, List.chain'_cons]
      refine ⟨⟨hts.1, hcs.1⟩, ?_⟩
      have := chain_zip_lt_le (t2 :: ts') (c2 :: cs') hts.2 hcs.2
      rwa [List.zip_cons_cons] at this

theorem getD_append_left_pair (A l : List (ℚ × ℚ)) (d : ℚ × ℚ) (k : ℕ)
    (h : k < A.length) : (A ++ l).getD k d = A.getD k d := by
  rw [List.getD_eq_getElem _ _ (by simp; omega), List.getD_eq_getElem _ _ h]
  exact List.getElem_append_left _

theorem getD_append_last_pair (A : List (ℚ × ℚ)) (x d : ℚ × ℚ) :
    (A ++ [x]).getD A.length d = x := by
  rw [List.getD_eq_getElem _ _ (by simp)]
  rw [List.getElem_append_right (le_refl A.length)]
  simp

theorem getD_last_eq_getLast (l : List (ℚ × ℚ)) (h : l ≠ []) :
    l.getD (l.length - 1) (0, 0) = l.getLast h := by
  have hpos : 0 < l.length := List.length_pos.mpr h
  rw [List.getD_eq_getElem _ _ (by omega)]
  rw [List.getLast_eq_getElem]

theorem popBeyond_prefix (D : ℚ) (l : List (ℚ × ℚ)) : popBeyond D l <+: l := by
  unfold popBeyond
  have h := List.dropWhile_suffix
    (l := l.reverse) (fun p : ℚ × ℚ => decide (D + tolMs < p.1))
  have h2 := List.reverse_prefix.mpr h
  rwa [List.reverse_reverse] at h2

theorem popBeyond_ne_nil {D : ℚ} {l : List (ℚ × ℚ)} {x : ℚ × ℚ}
    (hx : x ∈ l) (hxp : ¬ D + tolMs < x.1) : popBeyond D l ≠ [] := by
  unfold popBeyond
  intro hcon
  rw [List.reverse_eq_nil_iff, List.dropWhile_eq_nil_iff] at hcon
  exact hxp (by simpa using hcon x (by simpa using hx))

theorem popBeyond_last {D : ℚ} {l : List (ℚ × ℚ)}
    (h : popBeyond D l ≠ []) :
    ((popBeyond D l).getD ((popBeyond D l).length - 1) (0, 0)).1 ≤
      D + tolMs := by
  rw [getD_last_eq_getLast _ h]
  unfold popBeyond at h ⊢
  have hwne : l.reverse.dropWhile
      (fun p : ℚ × ℚ => decide (D + tolMs < p.1)) ≠ [] := by
    intro hcon
    rw [hcon] at h
    simp at h
  rw [List.getLast_reverse]
  have hnp := List.head_dropWhile_not
    (fun p : ℚ × ℚ => decide (D + tolMs < p.1)) l.reverse (by simpa using hwne)
  rw [decide_eq_false_iff_not] at hnp
  exact le_of_not_lt hnp

theorem prefix_getD_zero {l r : List (ℚ × ℚ)} (h : r <+: l) (hne : r ≠ []) :
    r.getD 0 (0, 0) = l.getD 0 (0, 0) := by
  obtain ⟨t, rfl⟩ := h
  cases r with
  | nil => exact absurd rfl hne
  | cons a r' => rw [List.cons_append, List.getD_cons_zero, List.getD_cons_zero]

/-- After `fixEnd`, the normalised point list is nonempty, still starts at
`(0, 0)`, has strictly increasing times and non-decreasing fractions
bounded by 1, and its last point is within `1e-3` of `(D, 1)`. -/
theorem fixEnd_spec {D : ℚ} {P : List (ℚ × ℚ)} (hD : tolMs < D)
    (hne : P ≠ []) (hhead : P.getD 0 (0, 0) = (0, 0))
    (hchain : List.Chain' (fun a b => a.1 < b.1 ∧ a.2 ≤ b.2) P)
    (hle1 : ∀ x ∈ P, x.2 ≤ 1) :
    fixEnd D P ≠ [] ∧
    (fixEnd D P).getD 0 (0, 0) = (0, 0) ∧
    List.Chain' (fun a b => a.1 < b.1 ∧ a.2 ≤ b.2) (fixEnd D P) ∧
    (∀ x ∈ fixEnd D P, x.2 ≤ 1) ∧
    |((fixEnd D P).getD ((fixEnd D P).length - 1) (0, 0)).1 - D| ≤ tolMs ∧
    |((fixEnd D P).getD ((fixEnd D P).length - 1) (0, 0)).2 - 1| ≤ tolMs := by
  have hmem0 : (0, 0) ∈ P := by
    have hpos : 0 < P.length := List.length_pos.mpr hne
    rw [← hhead]
    rw [List.getD_eq_getElem _ _ hpos]
    exact List.getElem_mem _
  have htolMs : (0 : ℚ) < tolMs := by norm_num [tolMs]
  have hP2ne : popBeyond D P ≠ [] :=
    popBeyond_ne_nil hmem0 (by simp only; linarith)
  have hP2pre : popBeyond D P <+: P := popBeyond_prefix D P
  have hP2head : (popBeyond D P).getD 0 (0, 0) = (0, 0) := by
    rw [prefix_getD_zero hP2pre hP2ne, hhead]
  have hP2chain : List.Chain' (fun a b => a.1 < b.1 ∧ a.2 ≤ b.2)
      (popBeyond D P) := chain_isPrefix hchain hP2pre
  have hP2le1 : ∀ x ∈ popBeyond D P, x.2 ≤ 1 :=
    fun x hx => hle1 x (hP2pre.subset hx)
  have hP2last := popBeyond_last hP2ne
  have hP2len : 0 < (popBeyond D P).length := List.length_pos.mpr hP2ne
  unfold fixEnd
  rw [if_neg (by omega)]
  set lastP := (popBeyond D P).getD ((popBeyond D P).length - 1) (0, 0)
    with hlastPdef
  by_cases hcaseA : tolMs < |lastP.1 - D|
  · -- the last time is far from `D`: append `(D, 1)`
    rw [if_pos hcaseA]
    have hlastlt : lastP.1 < D := by
      rcases abs_cases (lastP.1 - D) with ⟨habs, -⟩ | ⟨habs, -⟩
      · rw [habs] at hcaseA
        linarith
      · rw [habs] at hcaseA
        linarith
    have hlink : ∀ x ∈ (popBeyond D P).getLast?, x.1 < D ∧ x.2 ≤ 1 := by
      intro x hx
      obtain ⟨hne', hxeq⟩ := List.mem_getLast?_eq_getLast hx
      have hxlast : x = lastP := by
        rw [hxeq, hlastPdef, getD_last_eq_getLast _ hP2ne]
      rw [hxlast]
      exact ⟨hlastlt, hP2le1 lastP (by
        rw [hlastPdef, getD_last_eq_getLast _ hP2ne]
        exact List.getLast_mem hP2ne)⟩
    refine ⟨by simp, ?_, ?_, ?_, ?_, ?_⟩
    · rw [getD_append_left_pair _ _ _ 0 hP2len, hP2head]
    · rw [List.chain'_append]
      refine ⟨hP2chain, List.chain'_singleton _, ?_⟩
      intro x hx y hy
      simp only [List.head?_cons, Option.mem_def, Option.some.injEq] at hy
      subst hy
      exact hlink x hx
    · intro x hx
      rcases List.mem_append.mp hx with hx' | hx'
      · exact hP2le1 x hx'
      · simp only [List.mem_singleton] at hx'
        rw [hx']
    · have hlen : ((popBeyond D P) ++ [((D : ℚ), (1 : ℚ))]).length - 1 =
          (popBeyond D P).length := by simp
      rw [hlen, getD_append_last_pair]
      simp only [sub_self, abs_zero]
      exact htolMs.le
    · have hlen : ((popBeyond D P) ++ [((D : ℚ), (1 : ℚ))]).length - 1 =
          (popBeyond D P).length := by simp
      rw [hlen, getD_append_last_pair]
      simp only [sub_self, abs_zero]
      exact htolMs.le
  · -- the last time is within `1e-3` of `D`
    rw [if_neg hcaseA]
    have hlastD : |lastP.1 - D| ≤ tolMs := le_of_not_lt hcaseA
    have hP2len2 : 2 ≤ (popBeyond D P).length := by
      rcases Nat.lt_or_ge (popBeyond D P).length 2 with h2 | h2
      · exfalso
        -- a single point must be the head `(0, 0)`, whose time 0 is far from `D`
        have hone : (popBeyond D P).length = 1 := by omega
        have : lastP = (0, 0) := by
          rw [hlastPdef, hone]
          simpa using hP2head
        rw [this] at hlastD
        simp only [zero_sub, abs_neg] at hlastD
        rw [abs_of_pos (by linarith)] at hlastD
        linarith
      · exact h2
    by_cases hcaseB : tolMs < |lastP.2 - 1|
    · -- force the last fraction to 1
      rw [if_pos hcaseB]
      have hdecomp : (popBeyond D P).dropLast ++
          [(popBeyond D P).getLast hP2ne] = popBeyond D P :=
        List.dropLast_append_getLast hP2ne
      have hlastP_eq : (popBeyond D P).getLast hP2ne = lastP := by
        rw [hlastPdef, getD_last_eq_getLast _ hP2ne]
      have hdllen : (popBeyond D P).dropLast.length =
          (popBeyond D P).length - 1 := by simp
      have hdlne : (popBeyond D P).dropLast ≠ [] := by
        intro hcon
        rw [hcon] at hdllen
        simp at hdllen
        omega
      have hchsplit := hP2chain
      rw [← hdecomp, List.chain'_append] at hchsplit
      refine ⟨by simp, ?_, ?_, ?_, ?_, ?_⟩
      · rw [getD_append_left_pair _ _ _ 0 (by rw [hdllen]; omega)]
        have := prefix_getD_zero (l := popBeyond D P)
          (r := (popBeyond D P).dropLast)
          ⟨[(popBeyond D P).getLast hP2ne], hdecomp⟩ hdlne
        rw [this, hP2head]
      · rw [List.chain'_append]
        refine ⟨hchsplit.1, List.chain'_singleton _, ?_⟩
        intro x hx y hy
        simp only [List.head?_cons, Option.mem_def, Option.some.injEq] at hy
        subst hy
        have hlinkold := hchsplit.2.2 x hx ((popBeyond D P).getLast hP2ne)
          (by simp)
        constructor
        · simp only
          rw [← hlastP_eq]
          exact hlinkold.1
        · simp only
          obtain ⟨hne', hxeq⟩ := List.mem_getLast?_eq_getLast hx
          have hxm : x ∈ (popBeyond D P).dropLast :=
            hxeq ▸ List.getLast_mem hne'
          exact hP2le1 x (by
            rw [← hdecomp]
            exact List.mem_append_left _ hxm)
      · intro x hx
        rcases List.mem_append.mp hx with hx' | hx'
        · exact hP2le1 x (by
            rw [← hdecomp]
            exact List.mem_append_left _ hx')
        · simp only [List.mem_singleton] at hx'
          rw [hx']
      · have hlen : ((popBeyond D P).dropLast ++ [(lastP.1, (1 : ℚ))]).length
            - 1 = (popBeyond D P).dropLast.length := by simp
        rw [hlen, getD_append_last_pair]
        exact hlastD
      · have hlen : ((popBeyond D P).dropLast ++ [(lastP.1, (1 : ℚ))]).length
            - 1 = (popBeyond D P).dropLast.length := by simp
        rw [hlen, getD_append_last_pair]
        simp only [sub_self, abs_zero]
        exact htolMs.le
    · -- already within tolerance on both coordinates
      rw [if_neg hcaseB]
      exact ⟨hP2ne, hP2head, hP2chain, hP2le1, hlastD, le_of_not_lt hcaseB⟩

/-- Over a list with strictly increasing times and non-decreasing
fractions the monotonicity filter keeps every point. -/
theorem monoPass_sorted :
    ∀ (pts acc : List (ℚ × ℚ)) (pt pf : ℚ),
      List.Chain' (fun a b => a.1 < b.1 ∧ a.2 ≤ b.2) ((pt, pf) :: pts) →
      acc ≠ [] →
      monoPass (some (pt, pf)) acc pts = acc ++ pts
  | [], acc, pt, pf, _, _ => by rw [monoPass]; simp
  | (t, f) :: rest, acc, pt, pf, hch, hacc => by
      rw [List.chain'_cons] at hch
      rw [monoPass]
      rw [if_pos ⟨le_of_lt hch.1.1, by linarith [hch.1.2, tol_pos]⟩]
      rw [if_neg (by
        rintro ⟨h1, -⟩
        exact absurd h1 (ne_of_gt hch.1.1))]
      rw [monoPass_sorted rest (acc ++ [(t, f)]) t f hch.2 (by simp)]
      rw [List.append_assoc]
      rfl

theorem monoPass_sorted_top (pts : List (ℚ × ℚ))
    (hch : List.Chain' (fun a b => a.1 < b.1 ∧ a.2 ≤ b.2) pts) :
    monoPass none [] pts = pts := by
  cases pts with
  | nil => rw [monoPass]
  | cons q rest =>
      obtain ⟨t, f⟩ := q
      rw [monoPass]
      rw [show ([] : List (ℚ × ℚ)) ++ [(t, f)] = [(t, f)] from rfl]
      rw [monoPass_sorted rest [(t, f)] t f hch (by simp)]
      rfl

/-- When the parsed curve already starts at `(0, 0)`, step 1 changes
nothing. -/
theorem fixStart_id {P : List (ℚ × ℚ)} (hne : P ≠ [])
    (hhead : P.getD 0 (0, 0) = (0, 0)) : fixStart P = P := by
  cases P with
  | nil => exact absurd rfl hne
  | cons q rest =>
      obtain ⟨t0, f0⟩ := q
      rw [List.getD_cons_zero, Prod.mk.injEq] at hhead
      rw [fixStart]
      rw [if_neg (by
        rw [hhead.1, hhead.2]
        simp)]

theorem map_fst_getD (Q : List (ℚ × ℚ)) (k : ℕ) (h : k < Q.length) :
    (Q.map Prod.fst).getD k 0 = (Q.getD k (0, 0)).1 := by
  rw [List.getD_eq_getElem _ _ (by simpa using h),
    List.getD_eq_getElem _ _ h, List.getElem_map]

theorem map_snd_getD (Q : List (ℚ × ℚ)) (k : ℕ) (h : k < Q.length) :
    (Q.map Prod.snd).getD k 0 = (Q.getD k (0, 0)).2 := by
  rw [List.getD_eq_getElem _ _ (by simpa using h),
    List.getD_eq_getElem _ _ h, List.getElem_map]

/-! ### Claim C3: counterexample and amended theorem -/

/-- Counterexample to C3 as stated: a well-formed parsed curve whose last
point is `(1439.9995, 1.0)` — within the `1e-3`-minute end tolerance of
the nominal 1440 — is stored unchanged by the preprocessing pass, so the
stored curve's last time is not `nominalDurationMinutes`. -/
theorem preprocess_invariant_cex :
    preprocessCurve 1440 ⟨[0, 2879999 / 2000], [0, 1]⟩ =
      some ⟨[0, 2879999 / 2000], [0, 1]⟩ ∧
    ((2879999 : ℚ) / 2000) ≠ 1440 := by
  constructor
  · norm_num [preprocessCurve, fixStart, fixEnd, popBeyond, monoPass,
      mergeLastFrac, tolMs, tol, List.dropWhile]
    rw [show |(1 : ℚ) / 2000| = 1 / 2000 from abs_of_nonneg (by norm_num)]
    norm_num [monoPass, mergeLastFrac, tol]
  · norm_num

/-- C3 (amended): a parsed curve satisfying the parser's output contract
(equal lengths, nonempty, starting at `(0, 0)`, strictly increasing times,
non-decreasing fractions bounded by 1) is stored by the preprocessing pass
as a curve with equal lengths, starting at `(0, 0)`, with strictly
increasing times and non-decreasing fractions, whose last point lies
within `1e-3` of `(nominalDurationMinutes, 1.0)` — not exactly at it, as
the counterexample shows. -/
theorem preprocess_invariant (D : ℚ) (data out : DistributionData)
    (hD : tolMs < D)
    (hlen : data.time_minutes.length = data.cumulative_fraction.length)
    (hne : data.time_minutes ≠ [])
    (ht0 : data.time_minutes.getD 0 0 = 0)
    (hf0 : data.cumulative_fraction.getD 0 0 = 0)
    (htchain : List.Chain' (· < ·) data.time_minutes)
    (hfchain : List.Chain' (· ≤ ·) data.cumulative_fraction)
    (hf1 : ∀ f ∈ data.cumulative_fraction, f ≤ 1)
    (hout : preprocessCurve D data = some out) :
    out.time_minutes.length = out.cumulative_fraction.length ∧
    out.time_minutes ≠ [] ∧
    out.time_minutes.getD 0 0 = 0 ∧
    out.cumulative_fraction.getD 0 0 = 0 ∧
    List.Chain' (· < ·) out.time_minutes ∧
    List.Chain' (· ≤ ·) out.cumulative_fraction ∧
    |out.time_minutes.getD (out.time_minutes.length - 1) 0 - D| ≤ tolMs ∧
    |out.cumulative_fraction.getD
        (out.cumulative_fraction.length - 1) 0 - 1| ≤ tolMs := by
  have hlenpos : 0 < data.time_minutes.length := List.length_pos.mpr hne
  unfold preprocessCurve at hout
  rw [if_neg (fun hc => hc hlen), if_neg (by omega)] at hout
  set pts := data.time_minutes.zip data.cumulative_fraction with hptsdef
  have hptslen : pts.length = data.time_minutes.length := by
    rw [hptsdef, List.length_zip, hlen]
    omega
  have hptsne : pts ≠ [] := by
    intro hcon
    rw [hcon] at hptslen
    simp at hptslen
    omega
  have hptshead : pts.getD 0 (0, 0) = (0, 0) := by
    rw [hptsdef, zip_getD _ _ 0 (by omega) (by omega), ht0, hf0]
  have hptschain : List.Chain' (fun a b => a.1 < b.1 ∧ a.2 ≤ b.2) pts :=
    chain_zip_lt_le _ _ htchain hfchain
  have hptsle1 : ∀ x ∈ pts, x.2 ≤ 1 := by
    intro x hx
    exact hf1 x.2 (List.of_mem_zip hx).2
  rw [fixStart_id hptsne hptshead] at hout
  obtain ⟨hQne, hQhead, hQchain, hQle1, hQlastt, hQlastf⟩ :=
    fixEnd_spec hD hptsne hptshead hptschain hptsle1
  rw [monoPass_sorted_top _ hQchain] at hout
  set Q := fixEnd D pts with hQdef
  have hQlen : 0 < Q.length := List.length_pos.mpr hQne
  have hout' : out = ⟨Q.map Prod.fst, Q.map Prod.snd⟩ :=
    (Option.some.injEq _ _ ▸ hout).symm
  subst hout'
  refine ⟨by simp, ?_, ?_, ?_, ?_, ?_, ?_, ?_⟩
  · simp only [ne_eq, List.map_eq_nil_iff]
    exact hQne
  · rw [map_fst_getD Q 0 hQlen, hQhead]
  · rw [map_snd_getD Q 0 hQlen, hQhead]
  · rw [List.chain'_map]
    exact hQchain.imp (fun a b hab => hab.1)
  · rw [List.chain'_map]
    exact hQchain.imp (fun a b hab => hab.2)
  · have hl : (Q.map Prod.fst).length = Q.length := by simp
    rw [hl, map_fst_getD Q (Q.length - 1) (by omega)]
    exact hQlastt
  · have hl : (Q.map Prod.snd).length = Q.length := by simp
    rw [hl, map_snd_getD Q (Q.length - 1) (by omega)]
    exact hQlastf

/-- Witness for the amended C3 at a concrete parsed curve. -/
theorem preprocess_invariant_witness :
    (tolMs < (1440 : ℚ) ∧
      List.Chain' (· < ·) [(0 : ℚ), 720, 1439] ∧
      List.Chain' (· ≤ ·) [(0 : ℚ), 1/2, 1]) ∧
    (∀ out : DistributionData,
      preprocessCurve 1440 ⟨[0, 720, 1439], [0, 1/2, 1]⟩ = some out →
      out.time_minutes.getD 0 0 = 0 ∧
      List.Chain' (· < ·) out.time_minutes ∧
      |out.time_minutes.getD (out.time_minutes.length - 1) 0 - 1440| ≤
        tolMs) :=
  ⟨⟨by norm_num [tolMs], by norm_num, by norm_num⟩,
    fun out hout =>
      have h := preprocess_invariant 1440 ⟨[0, 720, 1439], [0, 1/2, 1]⟩ out
        (by norm_num [tolMs]) rfl (by simp) rfl rfl (by norm_num)
        (by norm_num) (by
          intro f hf
          simp only [List.mem_cons, List.mem_singleton] at hf
          rcases hf with h | h | h | h <;> simp_all <;> norm_num) hout
      ⟨h.2.2.1, h.2.2.2.2.1, h.2.2.2.2.2.2.1⟩⟩

/-! ## The historical 24-hour-base calculator (`src/client/src/utils/tr55.ts`)

The first `calculateHyetograph` of `tr55.ts` keys the distribution store by
the storm-type string alone and maps every target time onto the single
24-hour (1440-minute) base curve through
`equivalentBaseTime = max(0, min((t / durationMinutes) * 1440, 1440))`.
Its `linearInterpolate` uses exact `===` comparisons (no `1e-6` snaps) and
its emission loop skips only intervals of length `<= 0`. -/

/-- `'minutes' | 'hours'` duration-unit selector. -/
inductive DurationUnits where
  | minutes
  | hours
deriving DecidableEq

/-- `linearInterpolate(x, xPoints, yPoints)` from `tr55.ts`: clamps at the
ends, scans for the bracketing interval, returns the exact table value when
`x === xPoints[i]`, and otherwise interpolates linearly (with an exact
`x1 === x0` division guard). -/
def tr55Interp (x : ℚ) (xPoints yPoints : List ℚ) : ℚ :=
  if x ≤ xPoints.getD 0 0 then yPoints.getD 0 0
  else if xPoints.getD (xPoints.length - 1) 0 ≤ x then
    yPoints.getD (xPoints.length - 1) 0
  else
    let i := scanIdx x xPoints 1
    if i < xPoints.length ∧ x = xPoints.getD i 0 then yPoints.getD i 0
    else if i = 0 then yPoints.getD 0 0
    else if xPoints.getD i 0 = xPoints.getD (i - 1) 0 then
      yPoints.getD (i - 1) 0
    else
      yPoints.getD (i - 1) 0 +
        (yPoints.getD i 0 - yPoints.getD (i - 1) 0) *
          ((x - xPoints.getD (i - 1) 0) /
            (xPoints.getD i 0 - xPoints.getD (i - 1) 0))

/-- `equivalentBaseTime = Math.max(0, Math.min((t / D) * 1440, 1440))`. -/
def equivalentBaseTime (t D : ℚ) : ℚ := max 0 (min (t / D * 1440) 1440)

/-- `if (targetTimes[last] < durationMinutes) targetTimes.push(durationMinutes)`
(exact comparison, unlike the canonical `1e-6` version). -/
def tr55ForceLast (D : ℚ) (ts : List ℚ) : List ℚ :=
  if ts.getD (ts.length - 1) 0 < D then ts ++ [D] else ts

/-- `if (targetTimes[last] === targetTimes[last-1]) targetTimes.pop()`
(exact duplicate only). -/
def tr55PopDup (ts : List ℚ) : List ℚ :=
  if 1 < ts.length ∧ ts.getD (ts.length - 1) 0 = ts.getD (ts.length - 2) 0
  then ts.dropLast else ts

/-- `tr55.ts` target boundaries: the raw `min(i*dt, D)` grid, then the
exact push-the-duration fix, then the exact duplicate pop. -/
def tr55TargetTimes (D dt : ℚ) : List ℚ :=
  tr55PopDup (tr55ForceLast D (targetTimesRaw D dt))

/-- `targetCumulativeDepthsInches` of `tr55.ts`: each later boundary is
rescaled onto the 24-hour base curve before interpolation. -/
def tr55TargetCumulative (baseData : DistributionData) (totalDepthInches : ℚ)
    (D : ℚ) (ts : List ℚ) : List ℚ :=
  0 :: (ts.drop 1).map (fun t =>
    tr55Interp (equivalentBaseTime t D) baseData.time_minutes
      baseData.cumulative_fraction * totalDepthInches)

/-- The `tr55.ts` emission loop: skips only intervals of length `<= 0`,
and guards the intensity division by `stepDurationHours > 0`. -/
def tr55BuildSteps (conv : ℚ) : List (ℚ × ℚ) → List StormStep
  | (t0, c0) :: (t1, c1) :: rest =>
      if t1 - t0 ≤ 0 then tr55BuildSteps conv ((t1, c1) :: rest)
      else
        { timeStart := t0
          timeEnd := t1
          intensity :=
            (if 0 < (t1 - t0) / 60 then (c1 - c0) / ((t1 - t0) / 60) else 0) *
              conv
          depthStep := (c1 - c0) * conv
          cumulativeDepth := c1 * conv } :: tr55BuildSteps conv ((t1, c1) :: rest)
  | _ => []

/-- `calculatedTotalDepthInches` of `tr55.ts`: cumulative-depth differences
of the intervals of positive length. -/
def tr55EmittedDiffSum : List (ℚ × ℚ) → ℚ
  | (t0, c0) :: (t1, c1) :: rest =>
      if t1 - t0 ≤ 0 then tr55EmittedDiffSum ((t1, c1) :: rest)
      else (c1 - c0) + tr55EmittedDiffSum ((t1, c1) :: rest)
  | _ => 0

/-- Input parameters of the `tr55.ts` calculator: the storm type is a single
string key and the duration carries its own unit. -/
structure Tr55Inputs where
  totalDepthInput : ℚ
  durationInput : ℚ
  stormType : String
  timeStepMinutes : ℚ
  depthUnit : DepthUnit
  durationUnit : DurationUnits
deriving DecidableEq

/-- The historical `calculateHyetograph(inputs)` of `tr55.ts` (store lookup
first, then numeric validation; target times rescaled onto the 24-hour base
curve). -/
def tr55CalculateHyetograph (store : String → Option DistributionData)
    (inputs : Tr55Inputs) : CalculationResult :=
  match store inputs.stormType with
  | none => createEmptyResult
  | some baseData =>
      if inputs.totalDepthInput ≤ 0 ∨ inputs.durationInput ≤ 0 ∨
          inputs.timeStepMinutes ≤ 0 then
        createEmptyResult
      else
        let conversionFactor : ℚ := convFactor inputs.depthUnit
        let totalDepthInches := inputs.totalDepthInput / conversionFactor
        let D : ℚ :=
          match inputs.durationUnit with
          | DurationUnits.hours => inputs.durationInput * 60
          | DurationUnits.minutes => inputs.durationInput
        let ts := tr55TargetTimes D inputs.timeStepMinutes
        let cum := tr55TargetCumulative baseData totalDepthInches D ts
        let steps := tr55BuildSteps conversionFactor (ts.zip cum)
        let finalIntensities := steps.map (fun s => s.intensity)
        { labels :=
            steps.map (fun s => formatTimeLabel s.timeStart D) ++
              [formatTimeLabel D D]
          intensityData := finalIntensities
          peakIntensity :=
            finalIntensities.foldl (fun p v => if p < v then v else p) 0
          totalDepthActual := tr55EmittedDiffSum (ts.zip cum) * conversionFactor
          intensityUnit :=
            match inputs.depthUnit with
            | DepthUnit.metric => "mm/hr"
            | DepthUnit.us => "in/hr"
          depthUnit :=
            match inputs.depthUnit with
            | DepthUnit.metric => "mm"
            | DepthUnit.us => "in"
          detailedData := steps }

/-- The 24-hour base curve held by the historical store for the sub-type
under comparison: 30 % of the depth falls in the first half. -/
def baseCurveDay : DistributionData := ⟨[0, 720, 1440], [0, 3/10, 1]⟩

/-- The genuinely-per-duration 6-hour curve held by the canonical store for
the same sub-type: 50 % of the depth falls in the first half. -/
def sixHourCurve : DistributionData := ⟨[0, 180, 360], [0, 1/2, 1]⟩

/-- The historical store: keyed by the storm-type string alone. -/
def tr55DemoStore : String → Option DistributionData :=
  fun k => if k = "Type II" then some baseCurveDay else none

/-- The canonical store: keyed by `(category, subType, durationHours)`. -/
def canonicalDemoStore : CurveKey → Option DistributionData :=
  fun k => if k = ⟨"NOAA", "Type II", 6⟩ then some sixHourCurve else none

set_option maxRecDepth 40000 in
/-- C10: the historical calculator, which rescales every target time onto
the single 24-hour base curve, and the canonical calculator, which
interpolates the stored per-duration curve directly, are not equivalent:
for the same nominal inputs (depth 1, 6-hour duration, 180-minute step,
US units, sub-type "Type II") over their respective stores for that
sub-type, the peak intensities differ (1/6 in/hr against 7/30 in/hr), as
do the per-step depths. -/
theorem historical_canonical_divergence :
    (calculateHyetograph canonicalDemoStore
        ⟨1, 6, "NOAA", "Type II", 180, DepthUnit.us⟩).peakIntensity = 1/6 ∧
    (tr55CalculateHyetograph tr55DemoStore
        ⟨1, 6, "Type II", 180, DepthUnit.us, DurationUnits.hours⟩).peakIntensity
      = 7/30 ∧
    (calculateHyetograph canonicalDemoStore
        ⟨1, 6, "NOAA", "Type II", 180, DepthUnit.us⟩).peakIntensity ≠
      (tr55CalculateHyetograph tr55DemoStore
        ⟨1, 6, "Type II", 180, DepthUnit.us, DurationUnits.hours⟩).peakIntensity ∧
    (calculateHyetograph canonicalDemoStore
        ⟨1, 6, "NOAA", "Type II", 180, DepthUnit.us⟩).detailedData.map
        (fun s => s.depthStep) ≠
      (tr55CalculateHyetograph tr55DemoStore
        ⟨1, 6, "Type II", 180, DepthUnit.us, DurationUnits.hours⟩).detailedData.map
        (fun s => s.depthStep) := by
  refine ⟨?_, ?_, ?_, ?_⟩ <;> with_unfolding_all decide

/-! ## The NOAA PFDS CSV parser (`src/unnamed/part_004`)

`parseNoaaCsv` scans the (at least 13-line) CSV for the
`"by duration for ARI"` header line, maps the header's remaining cells to
column indices, and collects depth cells for the whitelisted return
periods and duration labels into per-return-period point lists. -/

/-- One parsed NOAA cell: cleaned duration label, depth in inches, and the
numeric duration with its unit. -/
structure NoaaDataPoint where
  durationLabel : String
  depth : ℚ
  durationValue : ℚ
  durationUnits : DurationUnits
deriving DecidableEq

/-- One return period's collected data points. -/
structure NoaaReturnPeriodData where
  returnPeriod : ℤ
  dataPoints : List NoaaDataPoint
deriving DecidableEq

/-- Replace every maximal run of whitespace by the single character `rep`
(the regexes `/\s+/g → ' '` and `/\s+/g → '-'`); the Boolean records
whether the previous character was part of a whitespace run. -/
def collapseWsAux (rep : Char) : Bool → List Char → List Char
  | _, [] => []
  | prevWs, c :: cs =>
      if c.isWhitespace then
        if prevWs then collapseWsAux rep true cs
        else rep :: collapseWsAux rep true cs
      else c :: collapseWsAux rep false cs

/-- `s.replace(/\s+/g, rep)`. -/
def collapseWsWith (rep : Char) (s : String) : String :=
  ⟨collapseWsAux rep false s.data⟩

/-- `h.replace(/^"|"$/g, '')`: strip one leading and one trailing double
quote when present. -/
def stripQuotes (s : String) : String :=
  let s1 := if s.startsWith "\"" then s.drop 1 else s
  if s1.endsWith "\"" then s1.dropRight 1 else s1

/-- `s.replace(/:$/, '')`: strip one trailing colon. -/
def stripTrailingColon (s : String) : String :=
  if s.endsWith ":" then s.dropRight 1 else s

/-- The numeric value of a list of decimal digit characters. -/
def digitsToNat (cs : List Char) : ℕ :=
  cs.foldl (fun acc c => acc * 10 + (c.toNat - 48)) 0

/-- `parseInt(s, 10)`: skip surrounding whitespace, read an optional sign
and then the longest leading digit run; `none` models `NaN`. -/
def jsParseInt (s : String) : Option ℤ :=
  match s.trim.data with
  | '-' :: rest =>
      let ds := rest.takeWhile Char.isDigit
      if ds = [] then none else some (-(digitsToNat ds : ℤ))
  | '+' :: rest =>
      let ds := rest.takeWhile Char.isDigit
      if ds = [] then none else some ((digitsToNat ds : ℤ))
  | cs =>
      let ds := cs.takeWhile Char.isDigit
      if ds = [] then none else some ((digitsToNat ds : ℤ))

/-- `parseFloat(s)`: skip surrounding whitespace, read an optional sign,
leading digits, and an optional fractional part, ignoring any trailing
characters; `none` models `NaN`. (Scientific notation, which never occurs
in PFDS depth cells, is not modelled.) -/
def jsParseFloat (s : String) : Option ℚ :=
  let cs := s.trim.data
  let sign : ℚ := if cs.head? = some '-' then -1 else 1
  let cs1 := if cs.head? = some '-' ∨ cs.head? = some '+' then cs.drop 1 else cs
  let ip := cs1.takeWhile Char.isDigit
  match cs1.dropWhile Char.isDigit with
  | '.' :: rest =>
      let fp := rest.takeWhile Char.isDigit
      if ip = [] ∧ fp = [] then none
      else some (sign * ((digitsToNat ip : ℚ) +
        (digitsToNat fp : ℚ) / (10 : ℚ) ^ fp.length))
  | _ => if ip = [] then none else some (sign * (digitsToNat ip : ℚ))

/-- `desiredReturnPeriods`: the fixed whitelist of return-period labels. -/
def desiredReturnPeriods : List String :=
  ["1", "2", "5", "10", "25", "50", "100", "200", "500", "1000"]

/-- `desiredDurationLabels`: the fixed whitelist of duration labels used
for unit parsing. -/
def desiredDurationLabels : List String :=
  ["5-min", "15-min", "60-min", "2-hr", "3-hr", "6-hr", "12-hr", "24-hr",
   "2-day", "4-day", "7-day", "10-day"]

/-- `lines = csvText.trim().split('\n')`. -/
def csvLines (csvText : String) : List String := csvText.trim.splitOn "\n"

/-- The header-line test: trim, collapse whitespace, lowercase, and compare
against the prefix `"by duration for ARI"` lowercased. -/
def isAriHeader (l : String) : Bool :=
  ((collapseWsWith ' ' l.trim).toLower).startsWith "by duration for ari"

/-- `ariHeadersRaw`: the header cells after the first, trimmed and
unquoted. -/
def ariHeaders (headerLine : String) : List String :=
  ((headerLine.splitOn ",").drop 1).map (fun h => stripQuotes h.trim)

/-- `ariHeaderMap`: associate each non-empty header cell with its index;
a later duplicate overwrites an earlier one, hence the reversal so that
`List.lookup` finds the last assignment. -/
def buildAriMap (hs : List String) : List (String × ℕ) :=
  ((hs.enum.filter (fun p : ℕ × String => ¬ p.2 = "")).map
    (fun p : ℕ × String => (p.2, p.1))).reverse

/-- The initial result map: one empty entry per desired return period that
parses as an integer and occurs in the header. -/
def initRPMap (ariMap : List (String × ℕ)) : List NoaaReturnPeriodData :=
  desiredReturnPeriods.filterMap (fun rpStr =>
    match jsParseInt rpStr, List.lookup rpStr ariMap with
    | some rpNum, some _ => some ⟨rpNum, []⟩
    | _, _ => none)

/-- `resultMap.has(rpNum)`. -/
def hasRP (m : List NoaaReturnPeriodData) (rp : ℤ) : Bool :=
  m.any (fun e => decide (e.returnPeriod = rp))

/-- `resultMap.get(rp)?.dataPoints.push(pt)`: append `pt` to the entry (or
entries) keyed `rp`. -/
def appendPoint (m : List NoaaReturnPeriodData) (rp : ℤ)
    (pt : NoaaDataPoint) : List NoaaReturnPeriodData :=
  m.map (fun e =>
    if e.returnPeriod = rp then ⟨e.returnPeriod, e.dataPoints ++ [pt]⟩ else e)

/-- `values`: the line's cells, trimmed and unquoted. -/
def lineValues (line : String) : List String :=
  (line.splitOn ",").map (fun v => stripQuotes v.trim)

/-- `durationLabel`: the first cell with a trailing colon stripped and
whitespace runs replaced by hyphens. -/
def lineLabel (line : String) : String :=
  collapseWsWith '-' (stripTrailingColon ((lineValues line).getD 0 ""))

/-- Extract `(durationValue, durationUnits)` from a recognised label of
the form `<N>-<unit>`: `min` keeps minutes, `hr` keeps hours, `day`
multiplies by 24 into hours; anything else leaves them undefined. -/
def parseDurationInfo (info : String) : Option (ℚ × DurationUnits) :=
  let parts := info.splitOn "-"
  match jsParseInt (parts.getD 0 "") with
  | none => none
  | some n =>
      let unitPart := (parts.getD 1 "").toLower
      if unitPart = "" then none
      else if unitPart = "min" then some ((n : ℚ), DurationUnits.minutes)
      else if unitPart = "hr" then some ((n : ℚ), DurationUnits.hours)
      else if unitPart = "day" then some ((n * 24 : ℚ), DurationUnits.hours)
      else none

/-- `durationValue`/`durationUnits` for a data line: look the cleaned label
up in the whitelist (case-insensitively) and parse the found entry. -/
def lineDurInfo (line : String) : Option (ℚ × DurationUnits) :=
  (desiredDurationLabels.find?
    (fun d => d.toLower == (lineLabel line).toLower)).bind parseDurationInfo

/-- One iteration of the inner `desiredReturnPeriods.forEach`: when the
return period parses, has a header column, is present in the map, and its
cell exists and parses (and the duration info is defined), append the
point. -/
def rpStep (values : List String) (durationLabel : String)
    (durInfo : Option (ℚ × DurationUnits)) (ariMap : List (String × ℕ))
    (acc : List NoaaReturnPeriodData) (rpStr : String) :
    List NoaaReturnPeriodData :=
  match jsParseInt rpStr, List.lookup rpStr ariMap with
  | some rpNum, some hIdx =>
      if hasRP acc rpNum = true ∧ hIdx + 1 < values.length then
        match jsParseFloat (values.getD (hIdx + 1) ""), durInfo with
        | some depth, some (dv, du) =>
            appendPoint acc rpNum ⟨durationLabel, depth, dv, du⟩
        | _, _ => acc
      else acc
  | _, _ => acc

/-- Processing of one data line: skip empty or comma-free lines and lines
with fewer than two cells, then run the inner return-period loop. -/
def processLine (ariMap : List (String × ℕ)) (m : List NoaaReturnPeriodData)
    (line : String) : List NoaaReturnPeriodData :=
  if line = "" ∨ line.trim = "" ∨ line.contains ',' = false then m
  else if (lineValues line).length < 2 then m
  else
    desiredReturnPeriods.foldl
      (rpStep (lineValues line) (lineLabel line) (lineDurInfo line) ariMap) m

/-- The header map extracted from the line at `headerIndex`. -/
def noaaAriMap (csvText : String) (headerIndex : ℕ) : List (String × ℕ) :=
  buildAriMap (ariHeaders ((csvLines csvText).getD headerIndex ""))

/-- The result map after folding every line below the header. -/
def noaaFinalMap (csvText : String) (headerIndex : ℕ) :
    List NoaaReturnPeriodData :=
  ((csvLines csvText).drop (headerIndex + 1)).foldl
    (processLine (noaaAriMap csvText headerIndex))
    (initRPMap (noaaAriMap csvText headerIndex))

/-- A point's duration in minutes, for the final per-return-period sort. -/
def ptMinutes (pt : NoaaDataPoint) : ℚ :=
  match pt.durationUnits with
  | DurationUnits.minutes => pt.durationValue
  | DurationUnits.hours => pt.durationValue * 60

/-- The final sorting: return periods ascending, then each point list by
duration in minutes (both sorts stable, as `Array.prototype.sort` is). -/
def sortGrid (l : List NoaaReturnPeriodData) : List NoaaReturnPeriodData :=
  (List.insertionSort (fun a b => a.returnPeriod ≤ b.returnPeriod) l).map
    (fun e => ⟨e.returnPeriod,
      List.insertionSort (fun a b => ptMinutes a ≤ ptMinutes b) e.dataPoints⟩)

/-- `parseNoaaCsv(csvText)` from `src/unnamed/part_004`. -/
def parseNoaaCsv (csvText : String) : Option (List NoaaReturnPeriodData) :=
  if (csvLines csvText).length < 13 then none
  else
    match (csvLines csvText).findIdx? isAriHeader with
    | none => none
    | some headerIndex =>
        if noaaAriMap csvText headerIndex = [] then none
        else
          if (noaaFinalMap csvText headerIndex).filter
              (fun e => decide (0 < e.dataPoints.length)) = [] then none
          else
            some (sortGrid ((noaaFinalMap csvText headerIndex).filter
              (fun e => decide (0 < e.dataPoints.length))))

/-! ### Concrete NOAA inputs -/

/-- The literal two-line minimal input of the parser scenario: the ARI
header row followed by one data row. -/
def noaaMinimalCsv : String :=
  "by duration for ARI (years):, 10, 25, 100\n60-min:, 1.0, 1.5, 2.0"

/-- The same scenario preceded by eleven metadata lines, so that the
13-line minimum of `parseNoaaCsv` is met. -/
def noaaPaddedCsv : String :=
  "meta line 1\nmeta line 2\nmeta line 3\nmeta line 4\nmeta line 5\n" ++
  "meta line 6\nmeta line 7\nmeta line 8\nmeta line 9\nmeta line 10\n" ++
  "meta line 11\nby duration for ARI (years):, 10, 25, 100\n" ++
  "60-min:, 1.0, 1.5, 2.0"

/-- A well-formed input whose header carries the integer return-period
column `3` (not on the `desiredReturnPeriods` whitelist) with the
parseable depth cell `9.9`. -/
def noaaRp3Csv : String :=
  "meta line 1\nmeta line 2\nmeta line 3\nmeta line 4\nmeta line 5\n" ++
  "meta line 6\nmeta line 7\nmeta line 8\nmeta line 9\nmeta line 10\n" ++
  "meta line 11\nby duration for ARI (years):, 3, 10\n" ++
  "60-min:, 9.9, 1.0"

/-- A well-formed input with whitelisted return periods 10 and 25 and one
`24-hr` data row. -/
def noaaCellsCsv : String :=
  "meta line 1\nmeta line 2\nmeta line 3\nmeta line 4\nmeta line 5\n" ++
  "meta line 6\nmeta line 7\nmeta line 8\nmeta line 9\nmeta line 10\n" ++
  "meta line 11\nby duration for ARI (years):, 10, 25\n" ++
  "24-hr:, 3.3, 4.4"

set_option maxRecDepth 200000 in
/-- C8 counterexample: on the literal minimal two-line input of the
scenario, `parseNoaaCsv` returns `null` (the guard requires at least 13
lines), not the described grid. -/
theorem noaa_minimal_rejected : parseNoaaCsv noaaMinimalCsv = none := by
  with_unfolding_all decide

set_option maxRecDepth 200000 in
/-- C8 (amended): once the scenario's header row and data row are preceded
by eleven metadata lines, `parseNoaaCsv` returns exactly the grid of
return periods 10, 25, 100, each holding the single `"60-min"` point with
depth 1.0, 1.5 and 2.0 respectively. -/
theorem parseNoaa_minimal_grid :
    parseNoaaCsv noaaPaddedCsv = some
      [⟨10, [⟨"60-min", 1, 60, DurationUnits.minutes⟩]⟩,
       ⟨25, [⟨"60-min", 3/2, 60, DurationUnits.minutes⟩]⟩,
       ⟨100, [⟨"60-min", 2, 60, DurationUnits.minutes⟩]⟩] := by
  with_unfolding_all decide

/-! ### The collection invariant of the data-line loop -/

/-- A point is recorded for a return period in a result map. -/
def pointIn (m : List NoaaReturnPeriodData) (rp : ℤ)
    (pt : NoaaDataPoint) : Prop :=
  ∃ e ∈ m, e.returnPeriod = rp ∧ pt ∈ e.dataPoints

theorem hasRP_iff {m : List NoaaReturnPeriodData} {rp : ℤ} :
    hasRP m rp = true ↔ ∃ e ∈ m, e.returnPeriod = rp := by
  simp [hasRP, List.any_eq_true]

theorem hasRP_appendPoint (m : List NoaaReturnPeriodData) (rp' : ℤ)
    (pt : NoaaDataPoint) (rp : ℤ) :
    hasRP (appendPoint m rp' pt) rp = hasRP m rp := by
  induction m with
  | nil => rfl
  | cons e m ih =>
      simp only [appendPoint, List.map_cons, hasRP, List.any_cons] at ih ⊢
      have hrp : (if e.returnPeriod = rp' then
          (⟨e.returnPeriod, e.dataPoints ++ [pt]⟩ : NoaaReturnPeriodData)
          else e).returnPeriod = e.returnPeriod := by
        split <;> rfl
      rw [hrp, ih]

theorem pointIn_appendPoint_mono {m : List NoaaReturnPeriodData} {rp : ℤ}
    {pt : NoaaDataPoint} (rp' : ℤ) (pt' : NoaaDataPoint)
    (h : pointIn m rp pt) : pointIn (appendPoint m rp' pt') rp pt := by
  obtain ⟨e, he, hrp, hpt⟩ := h
  refine ⟨if e.returnPeriod = rp' then
      ⟨e.returnPeriod, e.dataPoints ++ [pt']⟩ else e,
    List.mem_map_of_mem _ he, ?_, ?_⟩
  · split <;> exact hrp
  · split
    · exact List.mem_append_left _ hpt
    · exact hpt

theorem pointIn_appendPoint_self {m : List NoaaReturnPeriodData} {rp : ℤ}
    (h : hasRP m rp = true) (pt : NoaaDataPoint) :
    pointIn (appendPoint m rp pt) rp pt := by
  obtain ⟨e, he, hrp⟩ := hasRP_iff.mp h
  refine ⟨⟨e.returnPeriod, e.dataPoints ++ [pt]⟩, ?_, hrp, by simp⟩
  have heq : (if e.returnPeriod = rp then
      (⟨e.returnPeriod, e.dataPoints ++ [pt]⟩ : NoaaReturnPeriodData)
      else e) = ⟨e.returnPeriod, e.dataPoints ++ [pt]⟩ := if_pos hrp
  exact heq ▸ List.mem_map_of_mem _ he

theorem rpStep_hasRP (v : List String) (dl : String)
    (di : Option (ℚ × DurationUnits)) (am : List (String × ℕ))
    (acc : List NoaaReturnPeriodData) (s : String) (rp : ℤ) :
    hasRP (rpStep v dl di am acc s) rp = hasRP acc rp := by
  unfold rpStep
  repeat' split
  all_goals first | rfl | apply hasRP_appendPoint

theorem rpStep_pointIn_mono (v : List String) (dl : String)
    (di : Option (ℚ × DurationUnits)) (am : List (String × ℕ))
    {acc : List NoaaReturnPeriodData} (s : String) {rp : ℤ}
    {pt : NoaaDataPoint} (h : pointIn acc rp pt) :
    pointIn (rpStep v dl di am acc s) rp pt := by
  unfold rpStep
  repeat' split
  all_goals first | exact h | exact pointIn_appendPoint_mono _ _ h

theorem foldl_rpStep_hasRP (v : List String) (dl : String)
    (di : Option (ℚ × DurationUnits)) (am : List (String × ℕ)) (rp : ℤ) :
    ∀ (l : List String) (acc : List NoaaReturnPeriodData),
      hasRP (l.foldl (rpStep v dl di am) acc) rp = hasRP acc rp := by
  intro l
  induction l with
  | nil => intro acc; rfl
  | cons s l ih =>
      intro acc
      rw [List.foldl_cons, ih, rpStep_hasRP]

theorem foldl_rpStep_mono (v : List String) (dl : String)
    (di : Option (ℚ × DurationUnits)) (am : List (String × ℕ)) {rp : ℤ}
    {pt : NoaaDataPoint} :
    ∀ (l : List String) {acc : List NoaaReturnPeriodData},
      pointIn acc rp pt → pointIn (l.foldl (rpStep v dl di am) acc) rp pt := by
  intro l
  induction l with
  | nil => intro acc h; exact h
  | cons s l ih =>
      intro acc h
      rw [List.foldl_cons]
      exact ih (rpStep_pointIn_mono v dl di am s h)

theorem processLine_hasRP (am : List (String × ℕ))
    (m : List NoaaReturnPeriodData) (line : String) (rp : ℤ) :
    hasRP (processLine am m line) rp = hasRP m rp := by
  unfold processLine
  split
  · rfl
  · split
    · rfl
    · exact foldl_rpStep_hasRP _ _ _ _ _ _ _

theorem processLine_pointIn_mono (am : List (String × ℕ))
    {m : List NoaaReturnPeriodData} (line : String) {rp : ℤ}
    {pt : NoaaDataPoint} (h : pointIn m rp pt) :
    pointIn (processLine am m line) rp pt := by
  unfold processLine
  split
  · exact h
  · split
    · exact h
    · exact foldl_rpStep_mono _ _ _ _ _ h

theorem foldl_processLine_hasRP (am : List (String × ℕ)) (rp : ℤ) :
    ∀ (l : List String) (m : List NoaaReturnPeriodData),
      hasRP (l.foldl (processLine am) m) rp = hasRP m rp := by
  intro l
  induction l with
  | nil => intro m; rfl
  | cons s l ih =>
      intro m
      rw [List.foldl_cons, ih, processLine_hasRP]

theorem foldl_processLine_mono (am : List (String × ℕ)) {rp : ℤ}
    {pt : NoaaDataPoint} :
    ∀ (l : List String) {m : List NoaaReturnPeriodData},
      pointIn m rp pt → pointIn (l.foldl (processLine am) m) rp pt := by
  intro l
  induction l with
  | nil => intro m h; exact h
  | cons s l ih =>
      intro m h
      rw [List.foldl_cons]
      exact ih (processLine_pointIn_mono am s h)

/-- The inner-loop iteration at a return period whose guards all pass is
exactly an `appendPoint`. -/
theorem rpStep_hit (v : List String) (dl : String)
    {di : Option (ℚ × DurationUnits)} {am : List (String × ℕ)}
    {acc : List NoaaReturnPeriodData} {rpStr : String} {rpNum : ℤ}
    {colIdx : ℕ} {depth dv : ℚ} {du : DurationUnits}
    (hn : jsParseInt rpStr = some rpNum)
    (hc : List.lookup rpStr am = some colIdx)
    (hhas : hasRP acc rpNum = true)
    (hcell : colIdx + 1 < v.length)
    (hdepth : jsParseFloat (v.getD (colIdx + 1) "") = some depth)
    (hdi : di = some (dv, du)) :
    rpStep v dl di am acc rpStr = appendPoint acc rpNum ⟨dl, depth, dv, du⟩ := by
  unfold rpStep
  simp only [hn, hc]
  rw [if_pos ⟨hhas, hcell⟩]
  simp only [hdepth, hdi]

/-- Processing a data line that passes every guard appends the line's point
to the targeted return period. -/
theorem processLine_adds (am : List (String × ℕ))
    {m : List NoaaReturnPeriodData} {line rpStr : String} {rpNum : ℤ}
    {colIdx : ℕ} {depth dv : ℚ} {du : DurationUnits}
    (hg1 : ¬ line = "") (hg2 : ¬ line.trim = "")
    (hg3 : line.contains ',' = true)
    (hvlen : ¬ (lineValues line).length < 2)
    (hmem : rpStr ∈ desiredReturnPeriods)
    (hn : jsParseInt rpStr = some rpNum)
    (hc : List.lookup rpStr am = some colIdx)
    (hcell : colIdx + 1 < (lineValues line).length)
    (hdepth : jsParseFloat ((lineValues line).getD (colIdx + 1) "") =
      some depth)
    (hdi : lineDurInfo line = some (dv, du))
    (hhas : hasRP m rpNum = true) :
    pointIn (processLine am m line) rpNum ⟨lineLabel line, depth, dv, du⟩ := by
  unfold processLine
  rw [if_neg (by simp [hg1, hg2, hg3]), if_neg hvlen]
  obtain ⟨l1, l2, hsplit⟩ := List.append_of_mem hmem
  rw [hsplit, List.foldl_append, List.foldl_cons]
  apply foldl_rpStep_mono
  have hacc : hasRP (l1.foldl
      (rpStep (lineValues line) (lineLabel line) (lineDurInfo line) am) m)
      rpNum = true := by
    rw [foldl_rpStep_hasRP]; exact hhas
  rw [rpStep_hit (lineValues line) (lineLabel line) hn hc hacc hcell hdepth
    hdi]
  exact pointIn_appendPoint_self hacc _

/-- The desired return period occurring in the header seeds an empty entry
into the initial result map. -/
theorem hasRP_initRPMap {am : List (String × ℕ)} {rpStr : String}
    {rpNum : ℤ} {colIdx : ℕ} (hmem : rpStr ∈ desiredReturnPeriods)
    (hn : jsParseInt rpStr = some rpNum)
    (hc : List.lookup rpStr am = some colIdx) :
    hasRP (initRPMap am) rpNum = true := by
  apply hasRP_iff.mpr
  refine ⟨⟨rpNum, []⟩, ?_, rfl⟩
  apply List.mem_filterMap.mpr
  refine ⟨rpStr, hmem, ?_⟩
  simp only [hn, hc]

/-- C9 (amended): whenever `parseNoaaCsv` finds the header, then for every
data row below it passing the line guards, whose first cell cleans up to a
whitelisted duration label with parseable value and unit, and for every
*whitelisted* return period with a header column and a parseable depth
cell on that row, the returned grid holds a `FrequencyPoint` with that
label, depth, duration value and unit under that return period. (For
integer header columns outside the fixed `desiredReturnPeriods` whitelist
the parser records nothing, as the counterexample shows.) -/
theorem parseNoaa_supported_cells
    (csvText line rpStr : String) (hidx colIdx : ℕ) (rpNum : ℤ)
    (depth dv : ℚ) (du : DurationUnits)
    (h13 : ¬ (csvLines csvText).length < 13)
    (hhdr : (csvLines csvText).findIdx? isAriHeader = some hidx)
    (hline : line ∈ (csvLines csvText).drop (hidx + 1))
    (hg1 : ¬ line = "") (hg2 : ¬ line.trim = "")
    (hg3 : line.contains ',' = true)
    (hvlen : ¬ (lineValues line).length < 2)
    (hmem : rpStr ∈ desiredReturnPeriods)
    (hn : jsParseInt rpStr = some rpNum)
    (hc : List.lookup rpStr (noaaAriMap csvText hidx) = some colIdx)
    (hcell : colIdx + 1 < (lineValues line).length)
    (hdepth : jsParseFloat ((lineValues line).getD (colIdx + 1) "") =
      some depth)
    (hdi : lineDurInfo line = some (dv, du)) :
    ∃ g, parseNoaaCsv csvText = some g ∧
      ∃ e ∈ g, e.returnPeriod = rpNum ∧
        (⟨lineLabel line, depth, dv, du⟩ : NoaaDataPoint) ∈ e.dataPoints := by
  have hpoint : pointIn (noaaFinalMap csvText hidx) rpNum
      ⟨lineLabel line, depth, dv, du⟩ := by
    unfold noaaFinalMap
    obtain ⟨L1, L2, hsplit⟩ := List.append_of_mem hline
    rw [hsplit, List.foldl_append, List.foldl_cons]
    apply foldl_processLine_mono
    apply processLine_adds _ hg1 hg2 hg3 hvlen hmem hn hc hcell hdepth hdi
    rw [foldl_processLine_hasRP]
    exact hasRP_initRPMap hmem hn hc
  obtain ⟨e, he, hrp, hpt⟩ := hpoint
  have hepos : decide (0 < e.dataPoints.length) = true := by
    simp [List.length_pos, List.ne_nil_of_mem hpt]
  have hef : e ∈ (noaaFinalMap csvText hidx).filter
      (fun e => decide (0 < e.dataPoints.length)) :=
    List.mem_filter.mpr ⟨he, hepos⟩
  have ham : ¬ noaaAriMap csvText hidx = [] := by
    intro h
    rw [h] at hc
    cases hc
  have hfne : ¬ (noaaFinalMap csvText hidx).filter
      (fun e => decide (0 < e.dataPoints.length)) = [] :=
    List.ne_nil_of_mem hef
  refine ⟨sortGrid ((noaaFinalMap csvText hidx).filter
    (fun e => decide (0 < e.dataPoints.length))), ?_, ?_⟩
  · unfold parseNoaaCsv
    rw [if_neg h13]
    simp only [hhdr]
    rw [if_neg ham, if_neg hfne]
  · refine ⟨⟨e.returnPeriod,
      List.insertionSort (fun a b => ptMinutes a ≤ ptMinutes b)
        e.dataPoints⟩, ?_, hrp, ?_⟩
    · exact List.mem_map_of_mem _
        (((List.perm_insertionSort _ _).mem_iff).mpr hef)
    · exact ((List.perm_insertionSort _ _).mem_iff).mpr hpt

set_option maxRecDepth 200000 in
/-- Witness for the amended C9: on `noaaCellsCsv` the cell at return
period 25 and duration `24-hr` with depth 4.4 reaches the grid. -/
theorem parseNoaa_supported_cells_witness :
    ∃ g, parseNoaaCsv noaaCellsCsv = some g ∧
      ∃ e ∈ g, e.returnPeriod = 25 ∧
        (⟨"24-hr", 22/5, 24, DurationUnits.hours⟩ : NoaaDataPoint) ∈
          e.dataPoints := by
  have h := parseNoaa_supported_cells noaaCellsCsv "24-hr:, 3.3, 4.4" "25"
    11 1 25 (22/5) 24 DurationUnits.hours
    (by with_unfolding_all decide) (by with_unfolding_all decide)
    (by with_unfolding_all decide) (by with_unfolding_all decide)
    (by with_unfolding_all decide) (by with_unfolding_all decide)
    (by with_unfolding_all decide) (by with_unfolding_all decide)
    (by with_unfolding_all decide) (by with_unfolding_all decide)
    (by with_unfolding_all decide) (by with_unfolding_all decide)
    (by with_unfolding_all decide)
  rwa [show lineLabel "24-hr:, 3.3, 4.4" = "24-hr" from by
    with_unfolding_all decide] at h

set_option maxRecDepth 200000 in
/-- C9 counterexample: the header column `3` is an integer return period
whose depth cell `9.9` on the `60-min` row is parseable and non-empty, yet
the returned grid holds no entry for it: only the whitelisted period 10
survives. -/
theorem noaa_unsupported_rp_dropped :
    jsParseInt "3" = some 3 ∧
    jsParseFloat "9.9" = some (99/10) ∧
    parseNoaaCsv noaaRp3Csv =
      some [⟨10, [⟨"60-min", 1, 60, DurationUnits.minutes⟩]⟩] := by
  refine ⟨?_, ?_, ?_⟩ <;> with_unfolding_all decide

end GStorm
